import Mathlib

/-!
# A shallow embedding of the `bitcoin-node` Go repository

This file embeds the binary codec (`message` package), the handshake
(`networking/handshake.go`), the peer actor (`networking/peer.go`) and the
node supervisor (`networking/node.go`) of the `aang114/bitcoin-node`
repository, and proves or refutes the specification claims about them.

Go byte streams (`io.Reader`) are modelled as `List Nat` of byte values with
explicit state passing: a decoder takes the stream and returns the decoded
value together with the unconsumed suffix, or an error. `bufio.Reader`
(used by `decodeTxPayload`) is modelled by a pair (buffered bytes,
unconsumed underlying stream); its fill/peek/read behaviour over an
in-memory underlying reader is reproduced exactly, because discarding a
partially consumed buffer is observable to later decoders sharing the
underlying stream.
-/

set_option maxRecDepth 100000

namespace BitcoinNode

/-! ## Byte-level helpers

A byte is a `Nat` below 256; multi-byte integers are little-endian on the
wire unless noted (`encoding/binary` with `binary.LittleEndian` in Go). -/

abbrev Byte := Nat

/-- Little-endian encoding of `v` into `n` bytes (truncating, like a Go integer cast). -/
def toLE : Nat → Nat → List Byte
  | 0, _ => []
  | n + 1, v => v % 256 :: toLE n (v / 256)

/-- Little-endian decoding of a byte list. -/
def fromLE (bs : List Byte) : Nat :=
  bs.foldr (fun b acc => b + 256 * acc) 0

/-- Big-endian encoding (SHA-256 words, `binary.BigEndian` fields). -/
def toBE (n v : Nat) : List Byte := (toLE n v).reverse

def fromBE (bs : List Byte) : Nat := fromLE bs.reverse

/-- Two's-complement little-endian encoding of a signed value into `n` bytes
(`binary.Write` of a Go `int32` / `int64`). -/
def intToLE (n : Nat) (v : Int) : List Byte :=
  toLE n (v.emod ((2 : Int) ^ (8 * n))).toNat

/-- Two's-complement little-endian decoding into a signed value. -/
def intFromLE (bs : List Byte) : Int :=
  let u := fromLE bs
  if u < 2 ^ (8 * bs.length - 1) then (u : Int) else (u : Int) - 2 ^ (8 * bs.length)

/-! ## SHA-256 (`crypto/sha256`), over byte lists -/

def w32 (x : Nat) : Nat := x % 4294967296

def rotr (n x : Nat) : Nat := w32 ((x >>> n) ||| (x <<< (32 - n)))

def shaS0 (x : Nat) : Nat := (rotr 7 x) ^^^ (rotr 18 x) ^^^ (x >>> 3)

def shaS1 (x : Nat) : Nat := (rotr 17 x) ^^^ (rotr 19 x) ^^^ (x >>> 10)

def shaB0 (x : Nat) : Nat := (rotr 2 x) ^^^ (rotr 13 x) ^^^ (rotr 22 x)

def shaB1 (x : Nat) : Nat := (rotr 6 x) ^^^ (rotr 11 x) ^^^ (rotr 25 x)

def shaK : List Nat :=
  [1116352408, 1899447441, 3049323471, 3921009573, 961987163, 1508970993,
   2453635748, 2870763221, 3624381080, 310598401, 607225278, 1426881987,
   1925078388, 2162078206, 2614888103, 3248222580, 3835390401, 4022224774,
   264347078, 604807628, 770255983, 1249150122, 1555081692, 1996064986,
   2554220882, 2821834349, 2952996808, 3210313671, 3336571891, 3584528711,
   113926993, 338241895, 666307205, 773529912, 1294757372, 1396182291,
   1695183700, 1986661051, 2177026350, 2456956037, 2730485921, 2820302411,
   3259730800, 3345764771, 3516065817, 3600352804, 4094571909, 275423344,
   430227734, 506948616, 659060556, 883997877, 958139571, 1322822218,
   1537002063, 1747873779, 1955562222, 2024104815, 2227730452, 2361852424,
   2428436474, 2756734187, 3204031479, 3329325298]

/-- SHA-256 padding: 0x80, zeros to 56 mod 64, then the bit length as 8 big-endian bytes. -/
def shaPad (msg : List Byte) : List Byte :=
  msg ++ 0x80 :: List.replicate ((119 - msg.length % 64) % 64) 0 ++ toBE 8 (msg.length * 8)

def toChunksAux : Nat → List Byte → List (List Byte)
  | 0, _ => []
  | _, [] => []
  | fuel + 1, l => l.take 64 :: toChunksAux fuel (l.drop 64)

def toChunks (l : List Byte) : List (List Byte) := toChunksAux l.length l

/-- The first 16 32-bit words of a 64-byte chunk (big-endian). -/
def chunkWords : List Byte → List Nat
  | b0 :: b1 :: b2 :: b3 :: rest => fromBE [b0, b1, b2, b3] :: chunkWords rest
  | _ => []

/-- Extend a message-schedule window by one word. -/
def shaNextWord (ws : List Nat) : Nat :=
  let i := ws.length
  w32 (ws.getD (i - 16) 0 + shaS0 (ws.getD (i - 15) 0) + ws.getD (i - 7) 0 + shaS1 (ws.getD (i - 2) 0))

def shaExtend (ws : List Nat) : Nat → List Nat
  | 0 => ws
  | n + 1 => shaExtend (ws ++ [shaNextWord ws]) n

/-- One round of the SHA-256 compression function. -/
def shaRound (st : List Nat) (kw : Nat × Nat) : List Nat :=
  match st with
  | [a, b, c, d, e, f, g, h] =>
    let t1 := w32 (h + shaB1 e + ((e &&& f) ^^^ ((2 ^ 32 - 1 - e) &&& g)) + kw.1 + kw.2)
    let t2 := w32 (shaB0 a + ((b &&& c) ^^^ (c &&& a) ^^^ (a &&& b)))
    [w32 (t1 + t2), a, b, c, w32 (d + t1), e, f, g]
  | other => other

def shaCompress (h : List Nat) (chunk : List Byte) : List Nat :=
  let ws := shaExtend (chunkWords chunk) 48
  let st := (shaK.zip ws).foldl shaRound h
  (h.zip st).map fun p => w32 (p.1 + p.2)

def shaH0 : List Nat :=
  [1779033703,
   3144134277,
   1013904242,
   2773480762,
   1359893119,
   2600822924,
   528734635,
   1541459225]

/-- SHA-256 digest of a byte list, as 32 bytes. -/
def sha256 (msg : List Byte) : List Byte :=
  (((toChunks (shaPad msg)).foldl shaCompress shaH0).map (toBE 4)).flatten

/-- Double SHA-256: the hash used for block ids (`GetBlockHash`) and message
checksums (`checksum` in `message_header.go`). -/
def sha256d (msg : List Byte) : List Byte := sha256 (sha256 msg)

/-! ## Plain byte-stream reading (`io.ReadFull` / `binary.Read` on an `io.Reader`) -/

/-- Read exactly `n` bytes from the stream, or fail like `io.ReadFull`. -/
def readBytes (n : Nat) (s : List Byte) : Except String (List Byte × List Byte) :=
  if s.length < n then .error "EOF" else .ok (s.take n, s.drop n)

/-! ## VarInt (`message/varint.go`) -/

namespace VarInt

/-- Embeds `VarInt.Encode`: the value (a Go `uint64`) in its smallest form. -/
def encode (v : Nat) : List Byte :=
  if v < 0xFD then [v]
  else if v ≤ 0xFFFF then 0xFD :: toLE 2 v
  else if v ≤ 0xFFFFFFFF then 0xFE :: toLE 4 v
  else 0xFF :: toLE 8 v

end VarInt

/-- Embeds `DecodeVarInt`: reads a tag byte, then 0/2/4/8 further bytes. -/
def decodeVarInt (s : List Byte) : Except String (Nat × List Byte) :=
  match s with
  | [] => .error "EOF"
  | b :: rest =>
    if b = 0xFD then do
      let (bs, rest) ← readBytes 2 rest
      .ok (fromLE bs, rest)
    else if b = 0xFE then do
      let (bs, rest) ← readBytes 4 rest
      .ok (fromLE bs, rest)
    else if b = 0xFF then do
      let (bs, rest) ← readBytes 8 rest
      .ok (fromLE bs, rest)
    else .ok (b, rest)

/-! ## Transaction payloads (`message/tx_payload.go`) -/

/-- `Hash256` is `[32]byte` in Go. -/
abbrev Hash256 := List Byte

def zeroHash : Hash256 := List.replicate 32 0

structure OutPoint where
  hash : Hash256
  index : Nat
  deriving DecidableEq, Repr

structure TxIn where
  previousOutput : OutPoint
  signatureScript : List Byte
  sequence : Nat
  deriving DecidableEq, Repr

structure TxOut where
  value : Int
  pkScript : List Byte
  deriving DecidableEq, Repr

structure TxWitness where
  componentDataList : List (List Byte)
  deriving DecidableEq, Repr

structure TxPayload where
  version : Nat
  transactionInputs : List TxIn
  transactionOutputs : List TxOut
  transactionWitnesses : List TxWitness
  lockTime : Nat
  deriving DecidableEq, Repr

def maxScriptSize : Nat := 10000

/-- Embeds `OutPoint.Encode`. -/
def OutPoint.encode (o : OutPoint) : List Byte :=
  o.hash ++ toLE 4 o.index

/-- Embeds `TxIn.Encode`. -/
def TxIn.encode (t : TxIn) : List Byte :=
  t.previousOutput.encode ++ VarInt.encode t.signatureScript.length ++
    t.signatureScript ++ toLE 4 t.sequence

/-- Embeds `TxOut.Encode`. -/
def TxOut.encode (t : TxOut) : List Byte :=
  intToLE 8 t.value ++ VarInt.encode t.pkScript.length ++ t.pkScript

/-- Embeds `TxWitness.Encode`. -/
def TxWitness.encode (t : TxWitness) : List Byte :=
  VarInt.encode t.componentDataList.length ++
    (t.componentDataList.map fun c => VarInt.encode c.length ++ c).flatten

/-- Embeds `TxPayload.Encode`: the `0x00 0x01` flag and the witness section are
emitted exactly when the witness list is non-empty. -/
def TxPayload.Encode (t : TxPayload) : List Byte :=
  toLE 4 t.version ++
    (if t.transactionWitnesses.length > 0 then [0x00, 0x01] else []) ++
    VarInt.encode t.transactionInputs.length ++
    (t.transactionInputs.map TxIn.encode).flatten ++
    VarInt.encode t.transactionOutputs.length ++
    (t.transactionOutputs.map TxOut.encode).flatten ++
    (if t.transactionWitnesses.length > 0 then
      VarInt.encode t.transactionWitnesses.length ++
        (t.transactionWitnesses.map TxWitness.encode).flatten
     else []) ++
    toLE 4 t.lockTime

/-! ### The `bufio.Reader` model

`decodeTxPayload` wraps its argument in `bufio.NewReader` (buffer size 4096).
For an in-memory underlying reader (`bytes.Reader` / `bytes.Buffer`), one
`Read` of the underlying reader returns everything available up to the space
offered. A `BufState` is (buffered bytes, unconsumed underlying stream); the
bytes the buffer holds when the `bufio.Reader` is dropped are lost to the
underlying stream's later consumers. -/

abbrev BufState := List Byte × List Byte

/-- The whole byte sequence still readable through the buffered reader. -/
def BufState.toStream (s : BufState) : List Byte := s.1 ++ s.2

/-- `io.ReadFull` / `binary.Read` of `n` bytes through the `bufio.Reader`:
serve from the buffer; once the buffer is empty, read directly when the
request is at least the buffer size, otherwise fill the buffer (one
underlying read of up to 4096 bytes) and serve from it. -/
def bufRead (n : Nat) (s : BufState) : Except String (List Byte × BufState) :=
  let (b, r) := s
  if n ≤ b.length then .ok (b.take n, (b.drop n, r))
  else if b.length + r.length < n then .error "EOF"
  else
    let m := n - b.length
    if 4096 ≤ m then .ok (b ++ r.take m, ([], r.drop m))
    else
      let k := min 4096 r.length
      .ok (b ++ r.take m, ((r.take k).drop m, r.drop k))

/-- `bufio.Reader.Peek(2)`: fill the buffer as needed, return the first two
bytes without consuming them. -/
def bufPeek2 (s : BufState) : Except String (List Byte × BufState) :=
  let (b, r) := s
  if 2 ≤ b.length then .ok (b.take 2, (b, r))
  else
    let k := min (4096 - b.length) r.length
    let b2 := b ++ r.take k
    if 2 ≤ b2.length then .ok (b2.take 2, (b2, r.drop k)) else .error "EOF"

/-- `DecodeVarInt` called on the `bufio.Reader`. -/
def bufDecodeVarInt (s : BufState) : Except String (Nat × BufState) := do
  let (tag, s) ← bufRead 1 s
  if tag = [0xFD] then do
    let (bs, s) ← bufRead 2 s
    .ok (fromLE bs, s)
  else if tag = [0xFE] then do
    let (bs, s) ← bufRead 4 s
    .ok (fromLE bs, s)
  else if tag = [0xFF] then do
    let (bs, s) ← bufRead 8 s
    .ok (fromLE bs, s)
  else .ok (fromLE tag, s)

/-- Embeds `decodeOutPoint` (reading through the transaction's `bufio.Reader`). -/
def decodeOutPoint (s : BufState) : Except String (OutPoint × BufState) := do
  let (hash, s) ← bufRead 32 s
  let (idx, s) ← bufRead 4 s
  .ok (⟨hash, fromLE idx⟩, s)

/-- Embeds `decodeTxIn`: script length is capped at `maxScriptSize`. -/
def decodeTxIn (s : BufState) : Except String (TxIn × BufState) := do
  let (prev, s) ← decodeOutPoint s
  let (scriptLength, s) ← bufDecodeVarInt s
  if scriptLength > maxScriptSize then .error "signatureScript exceeded max length"
  else do
    let (script, s) ← bufRead scriptLength s
    let (seq, s) ← bufRead 4 s
    .ok (⟨prev, script, fromLE seq⟩, s)

/-- Embeds `decodeTxOut`: script length is capped at `maxScriptSize`. -/
def decodeTxOut (s : BufState) : Except String (TxOut × BufState) := do
  let (value, s) ← bufRead 8 s
  let (pkScriptLength, s) ← bufDecodeVarInt s
  if pkScriptLength > maxScriptSize then .error "pkScript exceeded max length"
  else do
    let (pk, s) ← bufRead pkScriptLength s
    .ok (⟨intFromLE value, pk⟩, s)

def decodeComponents : Nat → BufState → Except String (List (List Byte) × BufState)
  | 0, s => .ok ([], s)
  | n + 1, s => do
    let (len, s) ← bufDecodeVarInt s
    let (c, s) ← bufRead len s
    let (cs, s) ← decodeComponents n s
    .ok (c :: cs, s)

/-- Embeds `decodeTxWitness`. -/
def decodeTxWitness (s : BufState) : Except String (TxWitness × BufState) := do
  let (count, s) ← bufDecodeVarInt s
  let (cs, s) ← decodeComponents count s
  .ok (⟨cs⟩, s)

def decodeTxIns : Nat → BufState → Except String (List TxIn × BufState)
  | 0, s => .ok ([], s)
  | n + 1, s => do
    let (i, s) ← decodeTxIn s
    let (is, s) ← decodeTxIns n s
    .ok (i :: is, s)

def decodeTxOuts : Nat → BufState → Except String (List TxOut × BufState)
  | 0, s => .ok ([], s)
  | n + 1, s => do
    let (o, s) ← decodeTxOut s
    let (os, s) ← decodeTxOuts n s
    .ok (o :: os, s)

def decodeTxWitnesses : Nat → BufState → Except String (List TxWitness × BufState)
  | 0, s => .ok ([], s)
  | n + 1, s => do
    let (w, s) ← decodeTxWitness s
    let (ws, s) ← decodeTxWitnesses n s
    .ok (w :: ws, s)

/-- Embeds `decodeTxPayload`. The returned stream is the unconsumed part of
the *underlying* reader: the fresh `bufio.Reader` is dropped on return, so
whatever it still buffers is lost. -/
def decodeTxPayload (input : List Byte) : Except String (TxPayload × List Byte) := do
  let s0 : BufState := ([], input)
  let (ver, s) ← bufRead 4 s0
  let (peeked, s) ← bufPeek2 s
  let (flag, s) ←
    if peeked = [0x00, 0x01] then do
      let (_, s) ← bufRead 2 s
      pure (true, s)
    else pure (false, s)
  let (txInputCount, s) ← bufDecodeVarInt s
  let (ins, s) ← decodeTxIns txInputCount s
  let (txOutputCount, s) ← bufDecodeVarInt s
  let (outs, s) ← decodeTxOuts txOutputCount s
  let (wits, s) ←
    if flag then do
      let (txWitnessCount, s) ← bufDecodeVarInt s
      decodeTxWitnesses txWitnessCount s
    else pure ([], s)
  let (lockTime, s) ← bufRead 4 s
  .ok (⟨fromLE ver, ins, outs, wits, fromLE lockTime⟩, s.2)

/-! ## Block payloads (`message/block_payload.go`) -/

structure BlockPayload where
  version : Int
  prevBlock : Hash256
  merkleRoot : Hash256
  timestamp : Nat
  bits : Nat
  nonce : Nat
  transactions : List TxPayload
  deriving DecidableEq, Repr

/-- Embeds `BlockPayload.Encode`. -/
def BlockPayload.Encode (b : BlockPayload) : List Byte :=
  intToLE 4 b.version ++ b.prevBlock ++ b.merkleRoot ++
    toLE 4 b.timestamp ++ toLE 4 b.bits ++ toLE 4 b.nonce ++
    VarInt.encode b.transactions.length ++
    (b.transactions.map TxPayload.Encode).flatten

def decodeTxs : Nat → List Byte → Except String (List TxPayload × List Byte)
  | 0, s => .ok ([], s)
  | n + 1, s => do
    let (t, s) ← decodeTxPayload s
    let (ts, s) ← decodeTxs n s
    .ok (t :: ts, s)

/-- Embeds `decodeBlockPayload`: the six header fields, a VarInt transaction
count, then that many calls of `decodeTxPayload` on the same reader. -/
def decodeBlockPayload (s : List Byte) : Except String (BlockPayload × List Byte) := do
  let (ver, s) ← readBytes 4 s
  let (prev, s) ← readBytes 32 s
  let (merkle, s) ← readBytes 32 s
  let (ts, s) ← readBytes 4 s
  let (bits, s) ← readBytes 4 s
  let (nonce, s) ← readBytes 4 s
  let (transactionsCount, s) ← decodeVarInt s
  let (txs, s) ← decodeTxs transactionsCount s
  .ok (⟨intFromLE ver, prev, merkle, fromLE ts, fromLE bits, fromLE nonce, txs⟩, s)

/-- Embeds `BlockPayload.GetBlockHash`: double SHA-256 of the six header
fields in on-wire order. -/
def GetBlockHash (b : BlockPayload) : Hash256 :=
  sha256d (intToLE 4 b.version ++ b.prevBlock ++ b.merkleRoot ++
    toLE 4 b.timestamp ++ toLE 4 b.bits ++ toLE 4 b.nonce)

/-! ## Network addresses and the remaining payloads
(`message/network_address.go`, `version_payload.go`, `addr_payload.go`,
`getblocks_payload.go`, `inv_payload.go`, `getdata_payload.go`,
`ping_payload.go`, `pong_payload.go`) -/

structure NetworkAddress where
  services : Nat
  ipAddress : List Byte
  port : Nat
  deriving DecidableEq, Repr

/-- Embeds `NetworkAddress.encode`: services little-endian, 16 IP bytes,
port big-endian. -/
def NetworkAddress.encode (n : NetworkAddress) : List Byte :=
  toLE 8 n.services ++ n.ipAddress ++ toBE 2 n.port

def decodeNetworkAddress (s : List Byte) : Except String (NetworkAddress × List Byte) := do
  let (services, s) ← readBytes 8 s
  let (ip, s) ← readBytes 16 s
  let (port, s) ← readBytes 2 s
  .ok (⟨fromLE services, ip, fromBE port⟩, s)

structure VersionPayload where
  version : Int
  services : Nat
  timestamp : Int
  receivingNode : NetworkAddress
  transmittingNode : NetworkAddress
  nonce : Nat
  userAgent : List Byte
  startHeight : Int
  relay : Bool
  deriving DecidableEq, Repr

/-- Embeds `VersionPayload.Encode`. -/
def VersionPayload.encode (v : VersionPayload) : List Byte :=
  intToLE 4 v.version ++ toLE 8 v.services ++ intToLE 8 v.timestamp ++
    v.receivingNode.encode ++ v.transmittingNode.encode ++ toLE 8 v.nonce ++
    VarInt.encode v.userAgent.length ++ v.userAgent ++
    intToLE 4 v.startHeight ++ [if v.relay then 1 else 0]

def decodeVersionPayload (s : List Byte) : Except String (VersionPayload × List Byte) := do
  let (ver, s) ← readBytes 4 s
  let (services, s) ← readBytes 8 s
  let (ts, s) ← readBytes 8 s
  let (rnode, s) ← decodeNetworkAddress s
  let (tnode, s) ← decodeNetworkAddress s
  let (nonce, s) ← readBytes 8 s
  let (uaLen, s) ← decodeVarInt s
  let (ua, s) ← readBytes uaLen s
  let (height, s) ← readBytes 4 s
  let (relay, s) ← readBytes 1 s
  .ok (⟨intFromLE ver, fromLE services, intFromLE ts, rnode, tnode, fromLE nonce,
        ua, intFromLE height, relay ≠ [0]⟩, s)

structure Address where
  timestamp : Nat
  networkAddress : NetworkAddress
  deriving DecidableEq, Repr

def maxAddrCount : Nat := 1000

structure AddrPayload where
  addressList : List Address
  deriving DecidableEq, Repr

def decodeAddresses : Nat → List Byte → Except String (List Address × List Byte)
  | 0, s => .ok ([], s)
  | n + 1, s => do
    let (ts, s) ← readBytes 4 s
    let (na, s) ← decodeNetworkAddress s
    let (rest, s) ← decodeAddresses n s
    .ok (⟨fromLE ts, na⟩ :: rest, s)

/-- Embeds `decodeAddrPayload` (count capped at `maxAddrCount`). -/
def decodeAddrPayload (s : List Byte) : Except String (AddrPayload × List Byte) := do
  let (addrCount, s) ← decodeVarInt s
  if addrCount > maxAddrCount then .error "exceeded max address count"
  else do
    let (l, s) ← decodeAddresses addrCount s
    .ok (⟨l⟩, s)

structure GetBlocksPayload where
  version : Nat
  blockLocatorHashes : List Hash256
  hashStop : Hash256
  deriving DecidableEq, Repr

/-- Embeds `GetBlocksPayload.Encode`. -/
def GetBlocksPayload.encode (p : GetBlocksPayload) : List Byte :=
  toLE 4 p.version ++ VarInt.encode p.blockLocatorHashes.length ++
    p.blockLocatorHashes.flatten ++ p.hashStop

def decodeHashes : Nat → List Byte → Except String (List Hash256 × List Byte)
  | 0, s => .ok ([], s)
  | n + 1, s => do
    let (h, s) ← readBytes 32 s
    let (rest, s) ← decodeHashes n s
    .ok (h :: rest, s)

def decodeGetBlocksPayload (s : List Byte) : Except String (GetBlocksPayload × List Byte) := do
  let (ver, s) ← readBytes 4 s
  let (count, s) ← decodeVarInt s
  let (locators, s) ← decodeHashes count s
  let (stop, s) ← readBytes 32 s
  .ok (⟨fromLE ver, locators, stop⟩, s)

def maxInvCount : Nat := 50000

structure Inventory where
  type : Nat
  hash : Hash256
  deriving DecidableEq, Repr

def MsgTx : Nat := 1
def MsgBlock : Nat := 2
def MsgWitnessBlock : Nat := 0x40000002

structure InvPayload where
  inventoryList : List Inventory
  deriving DecidableEq, Repr

structure GetDataPayload where
  inventoryList : List Inventory
  deriving DecidableEq, Repr

/-- Shared on-wire shape of `InvPayload.Encode` and `GetDataPayload.Encode`. -/
def encodeInventoryList (l : List Inventory) : List Byte :=
  VarInt.encode l.length ++ (l.map fun i => toLE 4 i.type ++ i.hash).flatten

def decodeInventories : Nat → List Byte → Except String (List Inventory × List Byte)
  | 0, s => .ok ([], s)
  | n + 1, s => do
    let (ty, s) ← readBytes 4 s
    let (h, s) ← readBytes 32 s
    let (rest, s) ← decodeInventories n s
    .ok (⟨fromLE ty, h⟩ :: rest, s)

/-- Embeds `decodeInvPayload` (count capped at `maxInvCount`). -/
def decodeInvPayload (s : List Byte) : Except String (InvPayload × List Byte) := do
  let (count, s) ← decodeVarInt s
  if count > maxInvCount then .error "exceeded max inv count"
  else do
    let (l, s) ← decodeInventories count s
    .ok (⟨l⟩, s)

/-- Embeds `decodeGetDataPayload` (count capped at `maxInvCount`). -/
def decodeGetDataPayload (s : List Byte) : Except String (GetDataPayload × List Byte) := do
  let (count, s) ← decodeVarInt s
  if count > maxInvCount then .error "exceeded max inv count"
  else do
    let (l, s) ← decodeInventories count s
    .ok (⟨l⟩, s)

/-! ## Message framing (`message/message.go`, `message_header.go`) -/

def commandNameLength : Nat := 12
def checksumLength : Nat := 4
def maxPayloadSize : Nat := 32 * 1024 * 1024
def MainnetMagicValue : Nat := 0xD9B4BEF9
def ProtocolVersion : Int := 70015

/-- A 12-byte command name, zero padded (`CommandName` in Go). -/
def mkCommand (ascii : List Byte) : List Byte :=
  ascii ++ List.replicate (commandNameLength - ascii.length) 0

def VersionCommand : List Byte := mkCommand [0x76, 0x65, 0x72, 0x73, 0x69, 0x6F, 0x6E]
def VerackCommand : List Byte := mkCommand [0x76, 0x65, 0x72, 0x61, 0x63, 0x6B]
def WtxidRelayCommand : List Byte := mkCommand [0x77, 0x74, 0x78, 0x69, 0x64, 0x72, 0x65, 0x6C, 0x61, 0x79]
def SendAddrV2Command : List Byte := mkCommand [0x73, 0x65, 0x6E, 0x64, 0x61, 0x64, 0x64, 0x72, 0x76, 0x32]
def GetAddrCommand : List Byte := mkCommand [0x67, 0x65, 0x74, 0x61, 0x64, 0x64, 0x72]
def AddrCommand : List Byte := mkCommand [0x61, 0x64, 0x64, 0x72]
def GetBlocksCommand : List Byte := mkCommand [0x67, 0x65, 0x74, 0x62, 0x6C, 0x6F, 0x63, 0x6B, 0x73]
def InvCommand : List Byte := mkCommand [0x69, 0x6E, 0x76]
def GetDataCommand : List Byte := mkCommand [0x67, 0x65, 0x74, 0x64, 0x61, 0x74, 0x61]
def BlockCommand : List Byte := mkCommand [0x62, 0x6C, 0x6F, 0x63, 0x6B]
def TxCommand : List Byte := mkCommand [0x74, 0x78]
def PingCommand : List Byte := mkCommand [0x70, 0x69, 0x6E, 0x67]
def PongCommand : List Byte := mkCommand [0x70, 0x6F, 0x6E, 0x67]

/-- The tagged payload union behind Go's `Payload` interface. -/
inductive Payload where
  | version (v : VersionPayload)
  | verack
  | wtxidrelay
  | sendaddrv2
  | getaddr
  | addr (a : AddrPayload)
  | getblocks (g : GetBlocksPayload)
  | inv (i : InvPayload)
  | getdata (g : GetDataPayload)
  | block (b : BlockPayload)
  | tx (t : TxPayload)
  | ping (nonce : Nat)
  | pong (nonce : Nat)
  deriving DecidableEq, Repr

/-- `Payload.CommandName()` per concrete payload type. -/
def Payload.commandName : Payload → List Byte
  | .version _ => VersionCommand
  | .verack => VerackCommand
  | .wtxidrelay => WtxidRelayCommand
  | .sendaddrv2 => SendAddrV2Command
  | .getaddr => GetAddrCommand
  | .addr _ => AddrCommand
  | .getblocks _ => GetBlocksCommand
  | .inv _ => InvCommand
  | .getdata _ => GetDataCommand
  | .block _ => BlockCommand
  | .tx _ => TxCommand
  | .ping _ => PingCommand
  | .pong _ => PongCommand

/-- `Payload.Encode()` per concrete payload type. -/
def Payload.encode : Payload → List Byte
  | .version v => v.encode
  | .verack => []
  | .wtxidrelay => []
  | .sendaddrv2 => []
  | .getaddr => []
  | .addr a => VarInt.encode a.addressList.length ++
      (a.addressList.map fun x => toLE 4 x.timestamp ++ x.networkAddress.encode).flatten
  | .getblocks g => g.encode
  | .inv i => encodeInventoryList i.inventoryList
  | .getdata g => encodeInventoryList g.inventoryList
  | .block b => b.Encode
  | .tx t => t.Encode
  | .ping n => toLE 8 n
  | .pong n => toLE 8 n

structure MessageHeader where
  magic : Nat
  command : List Byte
  length : Nat
  checksum : List Byte
  deriving DecidableEq, Repr

/-- First four bytes of double SHA-256 (`checksum` in Go). -/
def checksum (encodedPayload : List Byte) : List Byte :=
  (sha256d encodedPayload).take checksumLength

structure Message where
  header : MessageHeader
  payload : Payload
  deriving DecidableEq, Repr

/-- Embeds `newMessage` / `newMessageHeader`: header built from the encoded payload. -/
def newMessage (p : Payload) : Message :=
  { header := { magic := MainnetMagicValue, command := p.commandName,
                length := p.encode.length, checksum := checksum p.encode }
    payload := p }

/-- Embeds `MessageHeader.encode`. -/
def MessageHeader.encode (h : MessageHeader) : List Byte :=
  toLE 4 h.magic ++ h.command ++ toLE 4 h.length ++ h.checksum

/-- Embeds `Message.Encode`: header then payload. -/
def Message.Encode (m : Message) : List Byte :=
  m.header.encode ++ m.payload.encode

/-- Embeds `decodeMessageHeader`: 4 magic bytes, 12 command bytes, 4 length
bytes, 4 checksum bytes — 24 bytes in all. -/
def decodeMessageHeader (s : List Byte) : Except String (MessageHeader × List Byte) := do
  let (magic, s) ← readBytes 4 s
  let (command, s) ← readBytes commandNameLength s
  let (len, s) ← readBytes 4 s
  let (chk, s) ← readBytes checksumLength s
  .ok (⟨fromLE magic, command, fromLE len, chk⟩, s)

/-- Decoding of a ping/pong payload (`decodePingPayload` / `decodePongPayload`). -/
def decodeNonce (s : List Byte) : Except String (Nat × List Byte) := do
  let (n, s) ← readBytes 8 s
  .ok (fromLE n, s)

/-- `DecodeMessage`'s dispatch on the command once the payload bytes are in
hand; each branch runs its reader on a fresh in-memory reader over the
payload bytes, ignoring any unconsumed leftover. -/
def decodePayload (command : List Byte) (encodedPayload : List Byte) : Except String Payload :=
  if command = VersionCommand then do
    let (v, _) ← decodeVersionPayload encodedPayload
    .ok (.version v)
  else if command = VerackCommand then
    if encodedPayload.length ≠ 0 then .error "invalid Payload length" else .ok .verack
  else if command = WtxidRelayCommand then
    if encodedPayload.length ≠ 0 then .error "invalid Payload length" else .ok .wtxidrelay
  else if command = SendAddrV2Command then
    if encodedPayload.length ≠ 0 then .error "invalid Payload length" else .ok .sendaddrv2
  else if command = AddrCommand then do
    let (a, _) ← decodeAddrPayload encodedPayload
    .ok (.addr a)
  else if command = GetAddrCommand then
    if encodedPayload.length ≠ 0 then .error "invalid Payload length" else .ok .getaddr
  else if command = GetBlocksCommand then do
    let (g, _) ← decodeGetBlocksPayload encodedPayload
    .ok (.getblocks g)
  else if command = InvCommand then do
    let (i, _) ← decodeInvPayload encodedPayload
    .ok (.inv i)
  else if command = GetDataCommand then do
    let (g, _) ← decodeGetDataPayload encodedPayload
    .ok (.getdata g)
  else if command = TxCommand then do
    let (t, _) ← decodeTxPayload encodedPayload
    .ok (.tx t)
  else if command = BlockCommand then do
    let (b, _) ← decodeBlockPayload encodedPayload
    .ok (.block b)
  else if command = PingCommand then do
    let (n, _) ← decodeNonce encodedPayload
    .ok (.ping n)
  else if command = PongCommand then do
    let (n, _) ← decodeNonce encodedPayload
    .ok (.pong n)
  else .error "unknown command name"

/-- Embeds `DecodeMessage`. The second component is the suffix of the input
stream that the call has not consumed (the reader's position on return):
exactly 24 header bytes are consumed before the size check, and the
`header.Length` payload bytes after it. -/
def DecodeMessage (s : List Byte) : Except String Message × List Byte :=
  match decodeMessageHeader s with
  | .error e => (.error e, s.drop 24)
  | .ok (header, s) =>
    if header.length > maxPayloadSize then (.error "payload too big", s)
    else
      match readBytes header.length s with
      | .error e => (.error e, s.drop header.length)
      | .ok (encodedPayload, s) =>
        if header.checksum ≠ checksum encodedPayload then (.error "invalid Checksum", s)
        else
          match decodePayload header.command encodedPayload with
          | .error e => (.error e, s)
          | .ok payload => (.ok ⟨header, payload⟩, s)

/-! ## Handshake (`networking/handshake.go`)

The receive side of the handshake is modelled over the sequence of messages
the connection will deliver (each one the result of `message.DecodeMessage`
on the transport); sends do not affect that sequence and are omitted. -/

/-- One `message.DecodeMessage(conn)` call at the message level. -/
def recvMessage (conn : List Message) : Except String (Message × List Message) :=
  match conn with
  | [] => .error "EOF"
  | m :: rest => .ok (m, rest)

/-- Embeds the receive side of `exchangeVersionMessage`: the first message
must be a version with the mainnet magic, and its advertised protocol
version must not exceed ours. -/
def exchangeVersionMessage (conn : List Message) :
    Except String (VersionPayload × List Message) := do
  let (msg, conn) ← recvMessage conn
  if msg.header.command ≠ VersionCommand then .error "invalid Command"
  else if msg.header.magic ≠ MainnetMagicValue then .error "invalid Magic"
  else
    match msg.payload with
    | .version payload =>
      if payload.version > ProtocolVersion then .error "protocol version not supported"
      else .ok (payload, conn)
    | _ => .error "invalid Payload"

/-- Embeds the receive side of `exchangeWtxidrelayMessage`: after sending
wtxidrelay, receive exactly one message, which must be a wtxidrelay with the
mainnet magic. -/
def exchangeWtxidrelayMessage (conn : List Message) : Except String (List Message) := do
  let (msg, conn) ← recvMessage conn
  if msg.header.command ≠ WtxidRelayCommand then .error "invalid Command"
  else if msg.header.magic ≠ MainnetMagicValue then .error "invalid Magic"
  else .ok conn

/-- Embeds the receive side of `exchangeVerackMessage`: after sending verack,
receive one message; when the received protocol version is at least 70016, a
single sendaddrv2 in that position is consumed and one more message is
received; the message left standing must be a verack with the mainnet magic. -/
def exchangeVerackMessage (receivedVersionNumber : Int) (conn : List Message) :
    Except String (List Message) := do
  let (msg, conn) ← recvMessage conn
  let (msg, conn) ←
    if receivedVersionNumber ≥ 70016 then
      if msg.header.magic ≠ MainnetMagicValue then .error "invalid Magic"
      else if msg.header.command = SendAddrV2Command then recvMessage conn
      else pure (msg, conn)
    else pure (msg, conn)
  if msg.header.command ≠ VerackCommand then .error "invalid Command"
  else if msg.header.magic ≠ MainnetMagicValue then .error "invalid Magic"
  else .ok conn

/-- Embeds the receive side of `PerformHandshake`: version exchange, then the
wtxidrelay exchange when the received version is at least 70016, then the
verack exchange. -/
def PerformHandshake (conn : List Message) :
    Except String (VersionPayload × List Message) := do
  let (receivedVersionPayload, conn) ← exchangeVersionMessage conn
  let conn ←
    if receivedVersionPayload.version ≥ 70016 then exchangeWtxidrelayMessage conn
    else pure conn
  let conn ← exchangeVerackMessage receivedVersionPayload.version conn
  .ok (receivedVersionPayload, conn)

/-! ## Peer actor (`networking/peer.go`) -/

structure TCPAddress where
  ipAddress : List Byte
  port : Nat
  deriving DecidableEq, Repr

/-- The per-peer state touched by `sendGetAddrMsg` and `handleAddrMessage`:
the one-shot address-reply slot (a channel in Go, identified here by an id),
the outbound write queue, and the quit flag. -/
structure PeerState where
  tcpAddress : TCPAddress
  hasQuit : Bool
  getAddrMsgResponseCh : Option Nat
  writeCh : List (List Byte)
  deriving DecidableEq, Repr

/-- The encoded getaddr message that `Peer.sendGetAddrMsg` enqueues. -/
def getAddrMsgEncoded : List Byte := (newMessage .getaddr).Encode

/-- Embeds `Peer.sendGetAddrMsg` (with `newCh` the fresh channel made by
`make(chan []message.Address)`): the one-shot slot is assigned
unconditionally, a getaddr message is enqueued for the writer, and the new
receiver is returned. The only Go error path is `NewGetAddrMessage` failing,
which cannot happen (the empty payload always encodes). -/
def Peer.sendGetAddrMsg (p : PeerState) (newCh : Nat) : Except String (Nat × PeerState) :=
  .ok (newCh, { p with getAddrMsgResponseCh := some newCh,
                       writeCh := p.writeCh ++ [getAddrMsgEncoded] })

/-- Embeds `Peer.handleAddrMessage`: drop when no request is in flight; drop a
single self-announcement; otherwise deliver to the waiting channel and clear
the slot. The returned `Option` is what gets delivered, if anything. -/
def Peer.handleAddrMessage (p : PeerState) (payload : Payload) :
    Except String (PeerState × Option (List Address)) :=
  match p.getAddrMsgResponseCh with
  | none => .ok (p, none)
  | some _ =>
    match payload with
    | .addr a =>
      match a.addressList with
      | [x] =>
        if x.networkAddress.ipAddress = p.tcpAddress.ipAddress ∧
            x.networkAddress.port = p.tcpAddress.port then
          .ok (p, none)
        else
          .ok ({ p with getAddrMsgResponseCh := none }, some a.addressList)
      | _ => .ok ({ p with getAddrMsgResponseCh := none }, some a.addressList)
    | _ => .error "invalid payload"

/-! ## Node supervisor (`networking/node.go`) -/

/-- The supervisor's block store: the ordered block list (`n.blocks`, a
`SafeSlice`) and the hash index (`n.blockHashes`, a `SafeMap` used as a set,
modelled by its key list). -/
structure NodeBlocks where
  blocks : List BlockPayload
  blockHashes : List Hash256
  deriving DecidableEq, Repr

def emptyNodeBlocks : NodeBlocks := ⟨[], []⟩

/-- Embeds `Node.addBlockToNode`: compute the block hash; if it is already
indexed do nothing, otherwise index it and append the block. -/
def addBlockToNode (n : NodeBlocks) (block : BlockPayload) : NodeBlocks :=
  let blockHash := GetBlockHash block
  if blockHash ∈ n.blockHashes then n
  else { blocks := n.blocks ++ [block], blockHashes := n.blockHashes ++ [blockHash] }

/-- Embeds `Node.getMissingBlocksHashes`: every stored block's previous-block
hash that is neither indexed nor the zero hash. -/
def getMissingBlocksHashes (n : NodeBlocks) : List Hash256 :=
  (n.blocks.filter fun b => b.prevBlock ∉ n.blockHashes ∧ b.prevBlock ≠ zeroHash).map
    (·.prevBlock)

/-- The chain-closure property §4.4.5 of the specification asserts as an
invariant: every held block's parent is the zero hash or also held. -/
def chainClosure (n : NodeBlocks) : Prop :=
  ∀ b ∈ n.blocks, b.prevBlock = zeroHash ∨ b.prevBlock ∈ n.blockHashes

instance : DecidablePred chainClosure := fun n =>
  inferInstanceAs (Decidable (∀ b ∈ n.blocks, _ ∨ _))

/-- Block-store states reachable through ingestion (`addBlockToNode`), which
is also the path `readBlocksFromDisk` restores through. -/
inductive ReachableBlocks : NodeBlocks → Prop where
  | empty : ReachableBlocks emptyNodeBlocks
  | add (n : NodeBlocks) (b : BlockPayload) :
      ReachableBlocks n → ReachableBlocks (addBlockToNode n b)

/-- The on-disk snapshot area: the temporary file `/tmp/<name>` and the
target file, each either absent or holding bytes. -/
structure SnapshotFS where
  tmpFile : Option (List Byte)
  targetFile : Option (List Byte)
  deriving DecidableEq, Repr

/-- Embeds `Node.saveBlocksToDisk`: refuse an empty block set before touching
any file; otherwise write the VarInt count and the encoded blocks to the
temporary file and rename it over the target. -/
def saveBlocksToDisk (blocks : List BlockPayload) (fs : SnapshotFS) :
    Except String Unit × SnapshotFS :=
  if blocks.length = 0 then (.error "no blocks to write to file", fs)
  else
    let content := VarInt.encode blocks.length ++ (blocks.map BlockPayload.Encode).flatten
    (.ok (), { tmpFile := none, targetFile := some content })

/-- The supervisor-level errors `selectLoop` distinguishes for the add-peers
branch (`ErrNodeHasNoPeersOrUnconnectedAddrs`, `ErrSendGetAddrMsgFailed`). -/
inductive NodeErr where
  | noPeersOrUnconnectedAddrs
  | sendGetAddrMsgFailed (peer : TCPAddress)
  | other (e : String)
  deriving DecidableEq, Repr

/-- The peer-pool state `addPeersIfNecessary` works on: live peers (keyed by
their remote address), connected addresses, unconnected addresses and the
minimum-peer target. -/
structure NodeNet where
  peers : List TCPAddress
  connectedAddrs : List TCPAddress
  unconnectedAddrs : List TCPAddress
  minimumPeers : Nat
  deriving DecidableEq, Repr

/-- The reply the `select` inside `addPeersIfNecessary` observes: either the
address list from the getaddr response channel, or the
`time.After(n.getAddrWaitTime)` timeout firing first. -/
inductive GetAddrReply where
  | addrs (l : List Address)
  | timeout
  deriving DecidableEq, Repr

/-- Embeds `Node.addUnconnectedAddrToNode`: insert unless currently connected. -/
def addUnconnectedAddrToNode (n : NodeNet) (a : TCPAddress) : NodeNet :=
  if a ∈ n.connectedAddrs then n
  else if a ∈ n.unconnectedAddrs then n
  else { n with unconnectedAddrs := n.unconnectedAddrs ++ [a] }

def addressToTCP (a : Address) : TCPAddress := ⟨a.networkAddress.ipAddress, a.networkAddress.port⟩

/-- Embeds `Node.attemptAddingSomePeers`: pop up to `maxNewPeers` unconnected
addresses; each address whose dial-and-handshake succeeds (per the `dialOk`
oracle) registers a peer and moves to connected, the rest are discarded. -/
def attemptAddingSomePeers (n : NodeNet) (maxNewPeers : Nat) (dialOk : TCPAddress → Bool) :
    NodeNet × Nat :=
  let tried := n.unconnectedAddrs.take maxNewPeers
  let added := tried.filter dialOk
  ({ n with peers := n.peers ++ added,
            connectedAddrs := n.connectedAddrs ++ added,
            unconnectedAddrs := n.unconnectedAddrs.drop maxNewPeers },
   added.length)

/-- Embeds `Node.addPeersIfNecessary`. `reply` resolves the `select` on the
getaddr response channel versus the timeout; `dialOk` resolves the parallel
dial attempts. The Boolean result records whether
`notifyThatPeersIsBelowMinPeers` fired at the end. -/
def addPeersIfNecessary (n : NodeNet) (reply : GetAddrReply) (dialOk : TCPAddress → Bool) :
    Except NodeErr (NodeNet × Bool) :=
  if n.peers.length = 0 ∧ n.unconnectedAddrs.length = 0 then
    .error .noPeersOrUnconnectedAddrs
  else if n.peers.length ≥ n.minimumPeers then .ok (n, false)
  else
    let connectionsToAdd := n.minimumPeers - n.peers.length
    let n :=
      match n.peers.head? with
      | some _ =>
        if n.unconnectedAddrs.length < connectionsToAdd then
          -- `n.sendGetAddrMsg(randomPeer)` never fails (see `Peer.sendGetAddrMsg`);
          -- a timeout leaves `addresses` nil, so the loop below inserts nothing.
          let addresses := match reply with | .addrs l => l | .timeout => []
          addresses.foldl (fun n a => addUnconnectedAddrToNode n (addressToTCP a)) n
        else n
      | none => n
    let (n, _successCount) := attemptAddingSomePeers n (n.minimumPeers * 10) dialOk
    .ok (n, decide (n.peers.length < n.minimumPeers))

/-- Embeds the `addPeersCh` branch of `Node.selectLoop`: run
`addPeersIfNecessary`; on `ErrSendGetAddrMsgFailed` quit that peer; on
`ErrNodeHasNoPeersOrUnconnectedAddrs` quit the node. Returns the new state,
the peers quit by this step, and whether the node quit. -/
def selectLoopAddPeersStep (n : NodeNet) (reply : GetAddrReply) (dialOk : TCPAddress → Bool) :
    NodeNet × List TCPAddress × Bool :=
  match addPeersIfNecessary n reply dialOk with
  | .ok (n', _) => (n', [], false)
  | .error (.sendGetAddrMsgFailed p) =>
    ({ n with peers := n.peers.filter (· ≠ p),
              connectedAddrs := n.connectedAddrs.filter (· ≠ p) }, [p], false)
  | .error .noPeersOrUnconnectedAddrs => (n, [], true)
  | .error (.other _) => (n, [], false)

/-! ## Concrete fixtures used by the claims -/

deriving instance DecidableEq for Except

/-- Wire bytes of a marked transaction: version 1, the `0x00 0x01` marker,
one input, zero outputs, witness count 0, lock time 9. -/
def markedTxBytes : List Byte :=
  [1, 0, 0, 0] ++ [0x00, 0x01] ++ [1] ++
    (List.replicate 32 0xCC ++ [0, 0, 0, 0] ++ [0] ++ [0xFF, 0xFF, 0xFF, 0xFF]) ++
    [0] ++ [0] ++ [9, 0, 0, 0]

/-- What `decodeTxPayload` makes of `markedTxBytes`. -/
def markedTxDecoded : TxPayload :=
  { version := 1,
    transactionInputs := [⟨⟨List.replicate 32 0xCC, 0⟩, [], 0xFFFFFFFF⟩],
    transactionOutputs := [], transactionWitnesses := [], lockTime := 9 }

/-- A minimal legacy transaction (one input, no outputs, no witnesses). -/
def plainTx : TxPayload :=
  { version := 1,
    transactionInputs := [⟨⟨List.replicate 32 0xAA, 0⟩, [], 0xFFFFFFFF⟩],
    transactionOutputs := [], transactionWitnesses := [], lockTime := 0 }

def oneTxBlock : BlockPayload :=
  { version := 2, prevBlock := List.replicate 32 0, merkleRoot := List.replicate 32 0xBB,
    timestamp := 100, bits := 200, nonce := 300, transactions := [plainTx] }

def twoTxBlock : BlockPayload :=
  { oneTxBlock with transactions := [plainTx, plainTx] }

def netAddrZero : NetworkAddress := ⟨1, List.replicate 16 0, 0⟩

def mkVersionPayload (v : Int) : VersionPayload :=
  ⟨v, 1, 100, netAddrZero, netAddrZero, 200, [], 300, false⟩

def versionMsg70016 : Message := newMessage (.version (mkVersionPayload 70016))

def versionMsg60002 : Message := newMessage (.version (mkVersionPayload 60002))

def wtxidrelayMsg : Message := newMessage .wtxidrelay

def sendaddrv2Msg : Message := newMessage .sendaddrv2

def verackMsg : Message := newMessage .verack

/-- A minimal concrete block used by witnesses. -/
def wBlock : BlockPayload :=
  { version := 2, prevBlock := List.replicate 32 0, merkleRoot := List.replicate 32 0xBB,
    timestamp := 100, bits := 200, nonce := 300, transactions := [] }

/-- The block-store invariant of §3: the hash index and the ordered block
list agree in membership, and the held blocks have pairwise distinct hashes. -/
def blocksInv (n : NodeBlocks) : Prop :=
  (∀ h : Hash256, h ∈ n.blockHashes ↔ h ∈ n.blocks.map GetBlockHash) ∧
  (n.blocks.map GetBlockHash).Nodup

/-- A block whose parent hash is neither held nor zero. -/
def cexBlock : BlockPayload :=
  { version := 1, prevBlock := 1 :: List.replicate 31 0, merkleRoot := List.replicate 32 0,
    timestamp := 7, bits := 0, nonce := 0, transactions := [] }

/-- A peer with an address request already in flight (the one-shot slot holds
a receiver). -/
def busyPeer : PeerState :=
  { tcpAddress := ⟨List.replicate 16 0, 8333⟩, hasQuit := false,
    getAddrMsgResponseCh := some 0, writeCh := [] }

/-! ## Helper lemmas -/

theorem toLE_length (n v : Nat) : (toLE n v).length = n := by
  induction n generalizing v with
  | zero => rfl
  | succ n ih => simp [toLE, ih]

theorem fromLE_cons (b : Byte) (l : List Byte) : fromLE (b :: l) = b + 256 * fromLE l := rfl

theorem fromLE_toLE {n v : Nat} (h : v < 256 ^ n) : fromLE (toLE n v) = v := by
  induction n generalizing v with
  | zero =>
    have : v = 0 := by simpa using h
    simp [this, toLE, fromLE]
  | succ n ih =>
    have hlt : v / 256 < 256 ^ n := by
      rw [Nat.div_lt_iff_lt_mul (by norm_num)]
      calc v < 256 ^ (n + 1) := h
        _ = 256 ^ n * 256 := by ring
    rw [toLE, fromLE_cons, ih hlt, Nat.mod_add_div]

theorem intToLE_length (n : Nat) (v : Int) : (intToLE n v).length = n := by
  simp [intToLE, toLE_length]

theorem intFromLE_intToLE {n : Nat} {v : Int} (hn : 0 < n)
    (hlo : -(2 ^ (8 * n - 1)) ≤ v) (hhi : v < 2 ^ (8 * n - 1)) :
    intFromLE (intToLE n v) = v := by
  have hhalf : (2 : Int) ^ (8 * n) = 2 ^ (8 * n - 1) * 2 := by
    rw [← pow_succ]
    congr 1
    omega
  have hMpos : (0 : Int) < 2 ^ (8 * n) := by positivity
  have hmodpos : 0 ≤ v.emod (2 ^ (8 * n)) := Int.emod_nonneg v (ne_of_gt hMpos)
  have hmodlt : v.emod (2 ^ (8 * n)) < 2 ^ (8 * n) := Int.emod_lt_of_pos v hMpos
  have hemod : v.emod (2 ^ (8 * n)) = v ∨ v.emod (2 ^ (8 * n)) = v + 2 ^ (8 * n) := by
    rcases le_or_lt 0 v with hv | hv
    · exact Or.inl (Int.emod_eq_of_lt hv (by linarith))
    · refine Or.inr ?_
      have h1 := Int.add_mul_emod_self_left v ((2 : Int) ^ (8 * n)) 1
      rw [mul_one] at h1
      have h2 : (v + 2 ^ (8 * n)).emod (2 ^ (8 * n)) = v + 2 ^ (8 * n) :=
        Int.emod_eq_of_lt (by linarith) (by linarith)
      calc v.emod (2 ^ (8 * n)) = (v + 2 ^ (8 * n)).emod (2 ^ (8 * n)) := h1.symm
        _ = v + 2 ^ (8 * n) := h2
  have h256 : (256 : Nat) ^ n = 2 ^ (8 * n) := by
    rw [show (256 : Nat) = 2 ^ 8 by norm_num, ← pow_mul]
  have hcastpow : ((2 ^ (8 * n) : Nat) : Int) = 2 ^ (8 * n) := by push_cast; ring
  have hucast : (((v.emod (2 ^ (8 * n))).toNat : Nat) : Int) = v.emod (2 ^ (8 * n)) :=
    Int.toNat_of_nonneg hmodpos
  have hult : (v.emod (2 ^ (8 * n))).toNat < 256 ^ n := by
    rw [h256]
    have : (((v.emod (2 ^ (8 * n))).toNat : Nat) : Int) < ((2 ^ (8 * n) : Nat) : Int) := by
      rw [hucast, hcastpow]
      exact hmodlt
    exact_mod_cast this
  rw [intToLE, intFromLE]
  simp only [toLE_length, fromLE_toLE hult]
  have hcasthalf : ((2 ^ (8 * n - 1) : Nat) : Int) = 2 ^ (8 * n - 1) := by push_cast; ring
  rcases hemod with he | he
  · have hcond : (v.emod (2 ^ (8 * n))).toNat < 2 ^ (8 * n - 1) := by
      have : (((v.emod (2 ^ (8 * n))).toNat : Nat) : Int) < ((2 ^ (8 * n - 1) : Nat) : Int) := by
        rw [hucast, hcasthalf, he]
        exact hhi
      exact_mod_cast this
    rw [if_pos hcond, hucast, he]
  · have hge : v < 0 := by
      by_contra hv0
      push_neg at hv0
      have := Int.emod_eq_of_lt hv0 (by linarith)
      omega
    have hcond : ¬ (v.emod (2 ^ (8 * n))).toNat < 2 ^ (8 * n - 1) := by
      intro hc
      have : (((v.emod (2 ^ (8 * n))).toNat : Nat) : Int) < ((2 ^ (8 * n - 1) : Nat) : Int) := by
        exact_mod_cast hc
      rw [hucast, hcasthalf, he] at this
      linarith
    rw [if_neg hcond, hucast, he]
    ring

theorem readBytes_exact {v : List Byte} (n : Nat) (rest : List Byte) (hv : v.length = n) :
    readBytes n (v ++ rest) = .ok (v, rest) := by
  rw [readBytes, if_neg (by simp [hv]), List.take_left' hv, List.drop_left' hv]

/-- `DecodeVarInt` recovers any value `VarInt.Encode` emits and consumes
exactly its bytes. -/
theorem decodeVarInt_encode {v : Nat} (hv : v < 2 ^ 64) (r : List Byte) :
    decodeVarInt (VarInt.encode v ++ r) = .ok (v, r) := by
  rw [VarInt.encode]
  split_ifs with h1 h2 h3
  · show decodeVarInt (v :: r) = .ok (v, r)
    have e1 : ¬ v = 0xFD := by omega
    have e2 : ¬ v = 0xFE := by omega
    have e3 : ¬ v = 0xFF := by omega
    rw [decodeVarInt, if_neg e1, if_neg e2, if_neg e3]
  · show decodeVarInt (0xFD :: (toLE 2 v ++ r)) = .ok (v, r)
    have hv2 : v < 256 ^ 2 := by norm_num; omega
    rw [decodeVarInt, if_pos rfl,
      show (readBytes 2 (toLE 2 v ++ r)) = .ok (toLE 2 v, r) from readBytes_exact 2 r (toLE_length 2 v)]
    show Except.ok (fromLE (toLE 2 v), r) = _
    rw [fromLE_toLE hv2]
  · show decodeVarInt (0xFE :: (toLE 4 v ++ r)) = .ok (v, r)
    have e1 : ¬ (0xFE : Nat) = 0xFD := by omega
    have hv4 : v < 256 ^ 4 := by norm_num; omega
    rw [decodeVarInt, if_neg e1, if_pos rfl,
      show (readBytes 4 (toLE 4 v ++ r)) = .ok (toLE 4 v, r) from readBytes_exact 4 r (toLE_length 4 v)]
    show Except.ok (fromLE (toLE 4 v), r) = _
    rw [fromLE_toLE hv4]
  · show decodeVarInt (0xFF :: (toLE 8 v ++ r)) = .ok (v, r)
    have e1 : ¬ (0xFF : Nat) = 0xFD := by omega
    have e2 : ¬ (0xFF : Nat) = 0xFE := by omega
    have hv8 : v < 256 ^ 8 := by norm_num; omega
    rw [decodeVarInt, if_neg e1, if_neg e2, if_pos rfl,
      show (readBytes 8 (toLE 8 v ++ r)) = .ok (toLE 8 v, r) from readBytes_exact 8 r (toLE_length 8 v)]
    show Except.ok (fromLE (toLE 8 v), r) = _
    rw [fromLE_toLE hv8]


/-! ## Reading through the buffered reader consumes the stream in order

`BufState.toStream` is the abstraction: however the bytes are split between
the buffer and the underlying reader, a successful read of n bytes returns
the next n bytes of the combined stream and leaves the rest. -/

theorem take_app_le {l₁ l₂ : List Byte} {n : Nat} (h : n ≤ l₁.length) :
    (l₁ ++ l₂).take n = l₁.take n := by
  rw [List.take_append_eq_append_take, Nat.sub_eq_zero_of_le h, List.take_zero, List.append_nil]

theorem drop_app_le {l₁ l₂ : List Byte} {n : Nat} (h : n ≤ l₁.length) :
    (l₁ ++ l₂).drop n = l₁.drop n ++ l₂ := by
  rw [List.drop_append_eq_append_drop, Nat.sub_eq_zero_of_le h, List.drop_zero]

theorem take_app_all {l₁ l₂ : List Byte} {n : Nat} (h : l₁.length ≤ n) :
    (l₁ ++ l₂).take n = l₁ ++ l₂.take (n - l₁.length) := by
  rw [List.take_append_eq_append_take, List.take_of_length_le h]

theorem drop_app_all {l₁ l₂ : List Byte} {n : Nat} (h : l₁.length ≤ n) :
    (l₁ ++ l₂).drop n = l₂.drop (n - l₁.length) := by
  rw [List.drop_append_eq_append_drop, List.drop_eq_nil_of_le h, List.nil_append]

theorem bufRead_exact {n : Nat} {v rest : List Byte} (s : BufState)
    (hv : v.length = n) (hs : s.toStream = v ++ rest) :
    ∃ s', bufRead n s = .ok (v, s') ∧ s'.toStream = rest := by
  obtain ⟨b, r⟩ := s
  simp only [BufState.toStream] at hs
  have hlen : b.length + r.length = n + rest.length := by
    have := congrArg List.length hs
    simpa [hv] using this
  rw [bufRead]
  by_cases h1 : n ≤ b.length
  · rw [if_pos h1]
    refine ⟨(b.drop n, r), ?_, ?_⟩
    · have hval : b.take n = v := by
        have h2 := congrArg (List.take n) hs
        rwa [take_app_le h1, take_app_le (le_of_eq hv.symm), List.take_of_length_le hv.le] at h2
      rw [hval]
    · have h3 := congrArg (List.drop n) hs
      rw [drop_app_le h1, List.drop_append_eq_append_drop, List.drop_eq_nil_of_le hv.le,
        List.nil_append, hv, Nat.sub_self, List.drop_zero] at h3
      simpa [BufState.toStream] using h3
  · rw [if_neg h1, if_neg (by omega)]
    push_neg at h1
    have hval : b ++ r.take (n - b.length) = v := by
      have h2 := congrArg (List.take n) hs
      rwa [take_app_all h1.le, take_app_le (le_of_eq hv.symm),
        List.take_of_length_le hv.le] at h2
    have hdropped : r.drop (n - b.length) = rest := by
      have h3 := congrArg (List.drop n) hs
      rwa [drop_app_all h1.le, List.drop_append_eq_append_drop, List.drop_eq_nil_of_le hv.le,
        List.nil_append, hv, Nat.sub_self, List.drop_zero] at h3
    by_cases h4 : 4096 ≤ n - b.length
    · rw [if_pos h4]
      exact ⟨([], r.drop (n - b.length)), by rw [hval], by
        simpa [BufState.toStream] using hdropped⟩
    · rw [if_neg h4]
      refine ⟨((r.take (min 4096 r.length)).drop (n - b.length),
        r.drop (min 4096 r.length)), by rw [hval], ?_⟩
      have hm : n - b.length ≤ min 4096 r.length := by omega
      have hk : (r.take (min 4096 r.length)).length = min 4096 r.length := by
        simp [List.length_take]
      calc (r.take (min 4096 r.length)).drop (n - b.length) ++ r.drop (min 4096 r.length)
          = (r.take (min 4096 r.length) ++ r.drop (min 4096 r.length)).drop (n - b.length) := by
            rw [drop_app_le (by omega)]
        _ = r.drop (n - b.length) := by rw [List.take_append_drop]
        _ = rest := hdropped

theorem bufPeek2_exact {v rest : List Byte} (s : BufState)
    (hv : v.length = 2) (hs : s.toStream = v ++ rest) :
    ∃ s', bufPeek2 s = .ok (v, s') ∧ s'.toStream = v ++ rest := by
  obtain ⟨b, r⟩ := s
  simp only [BufState.toStream] at hs
  have hlen : b.length + r.length = 2 + rest.length := by
    have := congrArg List.length hs
    simpa [hv] using this
  have htake : (b ++ r).take 2 = v := by
    have h2 := congrArg (List.take 2) hs
    rwa [take_app_le (le_of_eq hv.symm), List.take_of_length_le hv.le] at h2
  rw [bufPeek2]
  by_cases h1 : 2 ≤ b.length
  · rw [if_pos h1]
    refine ⟨(b, r), ?_, by simpa [BufState.toStream] using hs⟩
    rw [take_app_le h1] at htake
    rw [htake]
  · rw [if_neg h1]
    push_neg at h1
    have hb2 : b ++ r.take (min (4096 - b.length) r.length) =
        (b ++ r).take (b.length + min (4096 - b.length) r.length) := by
      rw [take_app_all (by omega), Nat.add_sub_cancel_left]
    have hlen2 : 2 ≤ b.length + min (4096 - b.length) r.length := by omega
    have hcond : 2 ≤ (b ++ r.take (min (4096 - b.length) r.length)).length := by
      rw [hb2, List.length_take]
      simp only [List.length_append]
      omega
    rw [if_pos hcond]
    refine ⟨(b ++ r.take (min (4096 - b.length) r.length),
      r.drop (min (4096 - b.length) r.length)), ?_, ?_⟩
    · have : (b ++ r.take (min (4096 - b.length) r.length)).take 2 = v := by
        rw [hb2, List.take_take, min_eq_left hlen2, htake]
      rw [this]
    · show b ++ r.take (min (4096 - b.length) r.length) ++
        r.drop (min (4096 - b.length) r.length) = v ++ rest
      rw [List.append_assoc, List.take_append_drop]
      exact hs

theorem fromLE_singleton (v : Byte) : fromLE [v] = v := by
  simp [fromLE]

theorem bufDecodeVarInt_exact {v : Nat} (hv : v < 2 ^ 64) (s : BufState) {rest : List Byte}
    (hs : s.toStream = VarInt.encode v ++ rest) :
    ∃ s', bufDecodeVarInt s = .ok (v, s') ∧ s'.toStream = rest := by
  rw [VarInt.encode] at hs
  split_ifs at hs with h1 h2 h3
  · obtain ⟨s₁, hr, hst⟩ := bufRead_exact s (show ([v] : List Byte).length = 1 from rfl) hs
    have e1 : ¬ ([v] : List Byte) = [0xFD] := by
      intro hc
      have hh : v = 0xFD := by injection hc
      omega
    have e2 : ¬ ([v] : List Byte) = [0xFE] := by
      intro hc
      have hh : v = 0xFE := by injection hc
      omega
    have e3 : ¬ ([v] : List Byte) = [0xFF] := by
      intro hc
      have hh : v = 0xFF := by injection hc
      omega
    refine ⟨s₁, ?_, hst⟩
    simp only [bufDecodeVarInt, bind, Except.bind, hr, if_neg e1, if_neg e2, if_neg e3,
      fromLE_singleton]
  · rw [show (0xFD : Byte) :: toLE 2 v = [0xFD] ++ toLE 2 v from rfl, List.append_assoc] at hs
    obtain ⟨s₁, hr1, hst1⟩ := bufRead_exact s (show ([0xFD] : List Byte).length = 1 from rfl) hs
    obtain ⟨s₂, hr2, hst2⟩ := bufRead_exact s₁ (v := toLE 2 v) (toLE_length 2 v) hst1
    refine ⟨s₂, ?_, hst2⟩
    have hfl : fromLE (toLE 2 v) = v := fromLE_toLE (by norm_num; omega)
    simp only [bufDecodeVarInt, bind, Except.bind, hr1, if_pos rfl, if_true, hr2, hfl]
  · rw [show (0xFE : Byte) :: toLE 4 v = [0xFE] ++ toLE 4 v from rfl, List.append_assoc] at hs
    obtain ⟨s₁, hr1, hst1⟩ := bufRead_exact s (show ([0xFE] : List Byte).length = 1 from rfl) hs
    obtain ⟨s₂, hr2, hst2⟩ := bufRead_exact s₁ (v := toLE 4 v) (toLE_length 4 v) hst1
    refine ⟨s₂, ?_, hst2⟩
    have hfl : fromLE (toLE 4 v) = v := fromLE_toLE (by norm_num; omega)
    have e1 : ¬ ([0xFE] : List Byte) = [0xFD] := by simp
    simp only [bufDecodeVarInt, bind, Except.bind, hr1, if_neg e1, if_pos rfl, if_true, hr2, hfl]
  · rw [show (0xFF : Byte) :: toLE 8 v = [0xFF] ++ toLE 8 v from rfl, List.append_assoc] at hs
    obtain ⟨s₁, hr1, hst1⟩ := bufRead_exact s (show ([0xFF] : List Byte).length = 1 from rfl) hs
    obtain ⟨s₂, hr2, hst2⟩ := bufRead_exact s₁ (v := toLE 8 v) (toLE_length 8 v) hst1
    refine ⟨s₂, ?_, hst2⟩
    have hfl : fromLE (toLE 8 v) = v := fromLE_toLE (by norm_num; omega)
    have e1 : ¬ ([0xFF] : List Byte) = [0xFD] := by simp
    have e2 : ¬ ([0xFF] : List Byte) = [0xFE] := by simp
    simp only [bufDecodeVarInt, bind, Except.bind, hr1, if_neg e1, if_neg e2, if_pos rfl,
      if_true, hr2, hfl]

theorem decodeOutPoint_exact (o : OutPoint) {rest : List Byte} (s : BufState)
    (h32 : o.hash.length = 32) (hidx : o.index < 2 ^ 32)
    (hs : s.toStream = o.encode ++ rest) :
    ∃ s', decodeOutPoint s = .ok (o, s') ∧ s'.toStream = rest := by
  rw [OutPoint.encode, List.append_assoc] at hs
  obtain ⟨s₁, hr1, hst1⟩ := bufRead_exact s h32 hs
  obtain ⟨s₂, hr2, hst2⟩ := bufRead_exact s₁ (toLE_length 4 o.index) hst1
  refine ⟨s₂, ?_, hst2⟩
  have hfl : fromLE (toLE 4 o.index) = o.index := fromLE_toLE (by norm_num; omega)
  simp only [decodeOutPoint, bind, Except.bind, hr1, hr2, hfl]

theorem decodeTxIn_exact (i : TxIn) {rest : List Byte} (s : BufState)
    (h32 : i.previousOutput.hash.length = 32) (hidx : i.previousOutput.index < 2 ^ 32)
    (hscript : i.signatureScript.length ≤ maxScriptSize) (hseq : i.sequence < 2 ^ 32)
    (hs : s.toStream = i.encode ++ rest) :
    ∃ s', decodeTxIn s = .ok (i, s') ∧ s'.toStream = rest := by
  rw [TxIn.encode] at hs
  simp only [List.append_assoc] at hs
  obtain ⟨s₁, hr1, hst1⟩ := decodeOutPoint_exact i.previousOutput s h32 hidx hs
  obtain ⟨s₂, hr2, hst2⟩ :=
    bufDecodeVarInt_exact (show i.signatureScript.length < 2 ^ 64 by
      unfold maxScriptSize at hscript; omega) s₁ hst1
  obtain ⟨s₃, hr3, hst3⟩ := bufRead_exact s₂ rfl hst2
  obtain ⟨s₄, hr4, hst4⟩ := bufRead_exact s₃ (toLE_length 4 i.sequence) hst3
  refine ⟨s₄, ?_, hst4⟩
  have hnb : ¬ i.signatureScript.length > maxScriptSize := by omega
  have hfl : fromLE (toLE 4 i.sequence) = i.sequence := fromLE_toLE (by norm_num; omega)
  simp only [decodeTxIn, bind, Except.bind, hr1, hr2, if_neg hnb, hr3, hr4, hfl]

theorem decodeTxOut_exact (o : TxOut) {rest : List Byte} (s : BufState)
    (hlo : -(2 ^ 63) ≤ o.value) (hhi : o.value < 2 ^ 63)
    (hscript : o.pkScript.length ≤ maxScriptSize)
    (hs : s.toStream = o.encode ++ rest) :
    ∃ s', decodeTxOut s = .ok (o, s') ∧ s'.toStream = rest := by
  rw [TxOut.encode] at hs
  simp only [List.append_assoc] at hs
  obtain ⟨s₁, hr1, hst1⟩ := bufRead_exact s (intToLE_length 8 o.value) hs
  obtain ⟨s₂, hr2, hst2⟩ :=
    bufDecodeVarInt_exact (show o.pkScript.length < 2 ^ 64 by
      unfold maxScriptSize at hscript; omega) s₁ hst1
  obtain ⟨s₃, hr3, hst3⟩ := bufRead_exact s₂ rfl hst2
  refine ⟨s₃, ?_, hst3⟩
  have hnb : ¬ o.pkScript.length > maxScriptSize := by omega
  have hfl : intFromLE (intToLE 8 o.value) = o.value :=
    intFromLE_intToLE (by norm_num) (by norm_num; exact hlo) (by norm_num; exact hhi)
  simp only [decodeTxOut, bind, Except.bind, hr1, hr2, if_neg hnb, hr3, hfl]

theorem decodeComponents_exact (cs : List (List Byte)) (hc : ∀ c ∈ cs, c.length < 2 ^ 64)
    (s : BufState) {rest : List Byte}
    (hs : s.toStream = (cs.map fun c => VarInt.encode c.length ++ c).flatten ++ rest) :
    ∃ s', decodeComponents cs.length s = .ok (cs, s') ∧ s'.toStream = rest := by
  induction cs generalizing s rest with
  | nil =>
    simp only [List.map_nil, List.flatten_nil, List.nil_append] at hs
    exact ⟨s, rfl, hs⟩
  | cons c cs ih =>
    simp only [List.map_cons, List.flatten_cons, List.append_assoc] at hs
    obtain ⟨s₁, hr1, hst1⟩ := bufDecodeVarInt_exact (hc c (by simp)) s hs
    obtain ⟨s₂, hr2, hst2⟩ := bufRead_exact s₁ rfl hst1
    obtain ⟨s₃, hr3, hst3⟩ := ih (fun x hx => hc x (by simp [hx])) s₂ hst2
    refine ⟨s₃, ?_, hst3⟩
    simp only [List.length_cons, decodeComponents, bind, Except.bind, hr1, hr2, hr3]

theorem decodeTxWitness_exact (w : TxWitness) {rest : List Byte} (s : BufState)
    (hcount : w.componentDataList.length < 2 ^ 64)
    (hc : ∀ c ∈ w.componentDataList, c.length < 2 ^ 64)
    (hs : s.toStream = w.encode ++ rest) :
    ∃ s', decodeTxWitness s = .ok (w, s') ∧ s'.toStream = rest := by
  rw [TxWitness.encode, List.append_assoc] at hs
  obtain ⟨s₁, hr1, hst1⟩ := bufDecodeVarInt_exact hcount s hs
  obtain ⟨s₂, hr2, hst2⟩ := decodeComponents_exact w.componentDataList hc s₁ hst1
  refine ⟨s₂, ?_, hst2⟩
  simp only [decodeTxWitness, bind, Except.bind, hr1, hr2]

theorem decodeTxIns_exact (l : List TxIn)
    (hins : ∀ i ∈ l, i.previousOutput.hash.length = 32 ∧ i.previousOutput.index < 2 ^ 32 ∧
      i.signatureScript.length ≤ maxScriptSize ∧ i.sequence < 2 ^ 32)
    (s : BufState) {rest : List Byte}
    (hs : s.toStream = (l.map TxIn.encode).flatten ++ rest) :
    ∃ s', decodeTxIns l.length s = .ok (l, s') ∧ s'.toStream = rest := by
  induction l generalizing s rest with
  | nil =>
    simp only [List.map_nil, List.flatten_nil, List.nil_append] at hs
    exact ⟨s, rfl, hs⟩
  | cons i l ih =>
    simp only [List.map_cons, List.flatten_cons, List.append_assoc] at hs
    obtain ⟨h1, h2, h3, h4⟩ := hins i (by simp)
    obtain ⟨s₁, hr1, hst1⟩ := decodeTxIn_exact i s h1 h2 h3 h4 hs
    obtain ⟨s₂, hr2, hst2⟩ := ih (fun x hx => hins x (by simp [hx])) s₁ hst1
    refine ⟨s₂, ?_, hst2⟩
    simp only [List.length_cons, decodeTxIns, bind, Except.bind, hr1, hr2]

theorem decodeTxOuts_exact (l : List TxOut)
    (houts : ∀ o ∈ l, -(2 ^ 63) ≤ o.value ∧ o.value < 2 ^ 63 ∧
      o.pkScript.length ≤ maxScriptSize)
    (s : BufState) {rest : List Byte}
    (hs : s.toStream = (l.map TxOut.encode).flatten ++ rest) :
    ∃ s', decodeTxOuts l.length s = .ok (l, s') ∧ s'.toStream = rest := by
  induction l generalizing s rest with
  | nil =>
    simp only [List.map_nil, List.flatten_nil, List.nil_append] at hs
    exact ⟨s, rfl, hs⟩
  | cons o l ih =>
    simp only [List.map_cons, List.flatten_cons, List.append_assoc] at hs
    obtain ⟨h1, h2, h3⟩ := houts o (by simp)
    obtain ⟨s₁, hr1, hst1⟩ := decodeTxOut_exact o s h1 h2 h3 hs
    obtain ⟨s₂, hr2, hst2⟩ := ih (fun x hx => houts x (by simp [hx])) s₁ hst1
    refine ⟨s₂, ?_, hst2⟩
    simp only [List.length_cons, decodeTxOuts, bind, Except.bind, hr1, hr2]

theorem decodeTxWitnesses_exact (l : List TxWitness)
    (hwits : ∀ w ∈ l, w.componentDataList.length < 2 ^ 64 ∧
      ∀ c ∈ w.componentDataList, c.length < 2 ^ 64)
    (s : BufState) {rest : List Byte}
    (hs : s.toStream = (l.map TxWitness.encode).flatten ++ rest) :
    ∃ s', decodeTxWitnesses l.length s = .ok (l, s') ∧ s'.toStream = rest := by
  induction l generalizing s rest with
  | nil =>
    simp only [List.map_nil, List.flatten_nil, List.nil_append] at hs
    exact ⟨s, rfl, hs⟩
  | cons w l ih =>
    simp only [List.map_cons, List.flatten_cons, List.append_assoc] at hs
    obtain ⟨h1, h2⟩ := hwits w (by simp)
    obtain ⟨s₁, hr1, hst1⟩ := decodeTxWitness_exact w s h1 h2 hs
    obtain ⟨s₂, hr2, hst2⟩ := ih (fun x hx => hwits x (by simp [hx])) s₁ hst1
    refine ⟨s₂, ?_, hst2⟩
    simp only [List.length_cons, decodeTxWitnesses, bind, Except.bind, hr1, hr2]

/-! ## Claim C9 — the witness count comes from the wire, not the input count -/

/-- Counterexample to C9: a transaction with the witness marker, one input
and an on-wire witness count of zero decodes successfully to an empty
witness list — the decoded witness-list length follows the wire count and
differs from the input count. -/
theorem decodeTx_witness_count_not_input_count :
    decodeTxPayload markedTxBytes = .ok (markedTxDecoded, []) ∧
    markedTxDecoded.transactionWitnesses.length ≠
      markedTxDecoded.transactionInputs.length := by
  constructor
  · decide
  · decide

/-- C9 (amended): after consuming the `0x00 0x01` marker the decoder reads a
VarInt witness count from the stream after the outputs and decodes exactly
that many witnesses; in particular decoding the encoding of any
witness-bearing transaction returns its witness list exactly — its length is
the encoded count, which is the number of witnesses present, not the number
of inputs. -/
theorem decodeTx_roundtrip_marked (t : TxPayload)
    (hw : t.transactionWitnesses ≠ [])
    (hver : t.version < 2 ^ 32) (hlock : t.lockTime < 2 ^ 32)
    (hincount : t.transactionInputs.length < 2 ^ 64)
    (houtcount : t.transactionOutputs.length < 2 ^ 64)
    (hwcount : t.transactionWitnesses.length < 2 ^ 64)
    (hins : ∀ i ∈ t.transactionInputs, i.previousOutput.hash.length = 32 ∧
      i.previousOutput.index < 2 ^ 32 ∧ i.signatureScript.length ≤ maxScriptSize ∧
      i.sequence < 2 ^ 32)
    (houts : ∀ o ∈ t.transactionOutputs, -(2 ^ 63) ≤ o.value ∧ o.value < 2 ^ 63 ∧
      o.pkScript.length ≤ maxScriptSize)
    (hwits : ∀ w ∈ t.transactionWitnesses, w.componentDataList.length < 2 ^ 64 ∧
      ∀ c ∈ w.componentDataList, c.length < 2 ^ 64) :
    decodeTxPayload t.Encode = .ok (t, []) := by
  have hflag : t.transactionWitnesses.length > 0 := by
    cases hl : t.transactionWitnesses with
    | nil => exact absurd hl hw
    | cons a l => simp
  have henc : BufState.toStream (([], t.Encode) : BufState) =
      toLE 4 t.version ++ ([0x00, 0x01] ++ (VarInt.encode t.transactionInputs.length ++
        ((t.transactionInputs.map TxIn.encode).flatten ++
          (VarInt.encode t.transactionOutputs.length ++
            ((t.transactionOutputs.map TxOut.encode).flatten ++
              (VarInt.encode t.transactionWitnesses.length ++
                ((t.transactionWitnesses.map TxWitness.encode).flatten ++
                  toLE 4 t.lockTime))))))) := by
    show t.Encode = _
    rw [TxPayload.Encode, if_pos hflag, if_pos hflag]
    simp [List.append_assoc]
  obtain ⟨s₁, hr1, hst1⟩ :=
    bufRead_exact (([], t.Encode) : BufState) (toLE_length 4 t.version) henc
  obtain ⟨s₂, hp, hst2⟩ :=
    bufPeek2_exact s₁ (show ([0x00, 0x01] : List Byte).length = 2 from rfl) hst1
  obtain ⟨s₃, hr2, hst3⟩ :=
    bufRead_exact s₂ (show ([0x00, 0x01] : List Byte).length = 2 from rfl) hst2
  obtain ⟨s₄, hr3, hst4⟩ := bufDecodeVarInt_exact hincount s₃ hst3
  obtain ⟨s₅, hr4, hst5⟩ := decodeTxIns_exact _ hins s₄ hst4
  obtain ⟨s₆, hr5, hst6⟩ := bufDecodeVarInt_exact houtcount s₅ hst5
  obtain ⟨s₇, hr6, hst7⟩ := decodeTxOuts_exact _ houts s₆ hst6
  obtain ⟨s₈, hr7, hst8⟩ := bufDecodeVarInt_exact hwcount s₇ hst7
  obtain ⟨s₉, hr8, hst9⟩ := decodeTxWitnesses_exact _ hwits s₈ hst8
  have hst9' : s₉.toStream = toLE 4 t.lockTime ++ [] := by
    rw [List.append_nil]
    exact hst9
  obtain ⟨s₁₀, hr9, hst10⟩ := bufRead_exact s₉ (toLE_length 4 t.lockTime) hst9'
  have hs2nil : s₁₀.2 = [] := by
    have := List.append_eq_nil.mp hst10
    exact this.2
  have hflv : fromLE (toLE 4 t.version) = t.version := fromLE_toLE (by norm_num; omega)
  have hfll : fromLE (toLE 4 t.lockTime) = t.lockTime := fromLE_toLE (by norm_num; omega)
  simp only [decodeTxPayload, bind, Except.bind, pure, Except.pure, hr1, hp, hr2, hr3, hr4,
    hr5, hr6, hr7, hr8, hr9, if_pos rfl, if_true, hflv, hfll, hs2nil]

/-- Witness for the amended C9: a marked transaction with one input and two
witnesses round-trips — the decoded witness list has length 2, the encoded
count, not the input count 1. -/
theorem decodeTx_roundtrip_marked_witness :
    decodeTxPayload (TxPayload.Encode
      ⟨1, [⟨⟨List.replicate 32 0xCC, 0⟩, [], 0xFFFFFFFF⟩], [], [⟨[]⟩, ⟨[[5]]⟩], 9⟩) =
      .ok (⟨1, [⟨⟨List.replicate 32 0xCC, 0⟩, [], 0xFFFFFFFF⟩], [], [⟨[]⟩, ⟨[[5]]⟩], 9⟩, []) :=
  decodeTx_roundtrip_marked _ (by decide) (by decide) (by decide) (by decide) (by decide)
    (by decide) (by decide) (by decide) (by decide)

/-! ## Claim C1 — block decode loses bytes buffered past a transaction -/

/-- C1 fails on the code: a block with one transaction round-trips, but the
same block with two transactions does not — the first `decodeTxPayload` call
wraps the shared reader in a fresh buffered reader that slurps the second
transaction's bytes and discards them on return, so the second call hits end
of stream and `decodeBlockPayload` fails instead of returning the block. -/
theorem decodeBlock_encode_fails_on_second_tx :
    decodeBlockPayload (BlockPayload.Encode oneTxBlock) = .ok (oneTxBlock, []) ∧
    decodeBlockPayload (BlockPayload.Encode twoTxBlock) = .error "EOF" := by
  constructor
  · decide
  · decide

/-! ## Claim C3 — where the handshake tolerates sendaddrv2 -/

/-- Counterexample to C3: a sendaddrv2 arriving right after the client sends
wtxidrelay is not consumed — `exchangeWtxidrelayMessage` fails the handshake
with "invalid Command". Moreover a peer that advertises protocol version
70016 is already rejected at the version exchange (the node's own version is
70015), so `PerformHandshake` never reaches the wtxidrelay step at all. -/
theorem wtxidrelay_step_rejects_sendaddrv2 :
    exchangeWtxidrelayMessage [sendaddrv2Msg, wtxidrelayMsg] = .error "invalid Command" ∧
    PerformHandshake [versionMsg70016, sendaddrv2Msg, wtxidrelayMsg, verackMsg] =
      .error "protocol version not supported" := by
  constructor
  · decide
  · decide

/-- C3 (amended): the wtxidrelay exchange accepts exactly a wtxidrelay with
the mainnet magic and fails on any other command, sendaddrv2 included; the
single interleaved sendaddrv2 is instead consumed during the verack exchange
when the received version is at least 70016, after which a verack is
required; and the version exchange only ever hands back a protocol version
of at most 70015, so the 70016 branch of `PerformHandshake` is vacuous. -/
theorem handshake_sendaddrv2_tolerance_at_verack :
    (∀ (m : Message) (rest : List Message), m.header.command = WtxidRelayCommand →
        m.header.magic = MainnetMagicValue →
        exchangeWtxidrelayMessage (m :: rest) = .ok rest) ∧
    (∀ (m : Message) (rest : List Message), m.header.command ≠ WtxidRelayCommand →
        exchangeWtxidrelayMessage (m :: rest) = .error "invalid Command") ∧
    (∀ (v : Int) (m m2 : Message) (rest : List Message), 70016 ≤ v →
        m.header.command = SendAddrV2Command → m.header.magic = MainnetMagicValue →
        m2.header.command = VerackCommand → m2.header.magic = MainnetMagicValue →
        exchangeVerackMessage v (m :: m2 :: rest) = .ok rest) ∧
    (∀ (conn : List Message) (v : VersionPayload) (rest : List Message),
        exchangeVersionMessage conn = .ok (v, rest) → v.version ≤ ProtocolVersion) := by
  refine ⟨?_, ?_, ?_, ?_⟩
  · intro m rest hc hm
    simp [exchangeWtxidrelayMessage, recvMessage, bind, Except.bind, hc, hm]
  · intro m rest hc
    simp [exchangeWtxidrelayMessage, recvMessage, bind, Except.bind, hc]
  · intro v m m2 rest hv hc hm hc2 hm2
    have hsv : SendAddrV2Command ≠ VerackCommand := by decide
    simp [exchangeVerackMessage, recvMessage, bind, Except.bind, hv, hc, hm, hc2, hm2, hsv]
  · intro conn v rest h
    cases conn with
    | nil => simp [exchangeVersionMessage, recvMessage, bind, Except.bind] at h
    | cons m conn =>
      simp only [exchangeVersionMessage, recvMessage, bind, Except.bind] at h
      by_cases hc : m.header.command ≠ VersionCommand
      · rw [if_pos hc] at h
        exact absurd h (by simp)
      · rw [if_neg hc] at h
        by_cases hm : m.header.magic ≠ MainnetMagicValue
        · rw [if_pos hm] at h
          exact absurd h (by simp)
        · rw [if_neg hm] at h
          cases hpay : m.payload <;> rw [hpay] at h
          · rename_i p
            simp only [gt_iff_lt] at h
            by_cases hgt : ProtocolVersion < p.version
            · rw [if_pos hgt] at h
              exact absurd h (by simp)
            · rw [if_neg hgt] at h
              injection h with h3
              have hp : p = v := congrArg Prod.fst h3
              rw [← hp]
              omega
          all_goals simp at h

/-- Witness for the amended C3 at concrete messages. -/
theorem handshake_sendaddrv2_tolerance_at_verack_witness :
    exchangeWtxidrelayMessage [wtxidrelayMsg] = .ok [] ∧
    exchangeWtxidrelayMessage [verackMsg] = .error "invalid Command" ∧
    exchangeVerackMessage 70016 [sendaddrv2Msg, verackMsg] = .ok [] ∧
    (mkVersionPayload 60002).version ≤ ProtocolVersion :=
  ⟨handshake_sendaddrv2_tolerance_at_verack.1 wtxidrelayMsg [] rfl rfl,
   handshake_sendaddrv2_tolerance_at_verack.2.1 verackMsg [] (by decide),
   handshake_sendaddrv2_tolerance_at_verack.2.2.1 70016 sendaddrv2Msg verackMsg []
     (by norm_num) rfl rfl rfl rfl,
   handshake_sendaddrv2_tolerance_at_verack.2.2.2 [versionMsg60002] (mkVersionPayload 60002) []
     (by decide)⟩

/-! ## Claim C7 — VarInt edge values -/

/-- C7: for every v in {0, 0xFC, 0xFD, 0xFFFF, 0x10000, 0xFFFFFFFF,
0x100000000}, `DecodeVarInt (VarInt.Encode v)` returns v having consumed the
whole encoding, and the encoded lengths are 1, 1, 3, 3, 5, 5, 9: encoders
emit the smallest form that fits these values. -/
theorem varint_edge_values_roundtrip :
    (decodeVarInt (VarInt.encode 0) = .ok (0, []) ∧ (VarInt.encode 0).length = 1) ∧
    (decodeVarInt (VarInt.encode 0xFC) = .ok (0xFC, []) ∧ (VarInt.encode 0xFC).length = 1) ∧
    (decodeVarInt (VarInt.encode 0xFD) = .ok (0xFD, []) ∧ (VarInt.encode 0xFD).length = 3) ∧
    (decodeVarInt (VarInt.encode 0xFFFF) = .ok (0xFFFF, []) ∧ (VarInt.encode 0xFFFF).length = 3) ∧
    (decodeVarInt (VarInt.encode 0x10000) = .ok (0x10000, []) ∧ (VarInt.encode 0x10000).length = 5) ∧
    (decodeVarInt (VarInt.encode 0xFFFFFFFF) = .ok (0xFFFFFFFF, []) ∧ (VarInt.encode 0xFFFFFFFF).length = 5) ∧
    (decodeVarInt (VarInt.encode 0x100000000) = .ok (0x100000000, []) ∧ (VarInt.encode 0x100000000).length = 9) := by
  decide

/-! ## Claim C6 — oversized payload length -/

theorem decodeMessageHeader_eq (s : List Byte) (h : 24 ≤ s.length) :
    decodeMessageHeader s =
      .ok (⟨fromLE (s.take 4), (s.drop 4).take 12, fromLE ((s.drop 16).take 4),
            (s.drop 20).take 4⟩, s.drop 24) := by
  have l4 : ¬ s.length < 4 := by omega
  have l12 : ¬ (s.drop 4).length < 12 := by simp only [List.length_drop]; omega
  have l4b : ¬ ((s.drop 4).drop 12).length < 4 := by simp only [List.length_drop]; omega
  have l4c : ¬ (((s.drop 4).drop 12).drop 4).length < 4 := by
    simp only [List.length_drop]; omega
  simp only [decodeMessageHeader, readBytes, commandNameLength, checksumLength, bind,
    Except.bind, if_neg l4, if_neg l12, if_neg l4b, if_neg l4c, List.drop_drop]
  have l16 : ¬ (List.drop (4 + 12) s).length < 4 := by simp only [List.length_drop]; omega
  have l20 : ¬ (List.drop (4 + 12 + 4) s).length < 4 := by simp only [List.length_drop]; omega
  simp only [if_neg l16, if_neg l20]
  simp [List.drop_drop]

/-- C6: whenever the 24-byte header parses and its little-endian length field
(bytes 16..19) exceeds 32 MiB, `DecodeMessage` fails with "payload too big"
having consumed exactly the 24 header bytes — no payload byte is read. -/
theorem decodeMessage_payload_too_big (s : List Byte) (h24 : 24 ≤ s.length)
    (hbig : maxPayloadSize < fromLE ((s.drop 16).take 4)) :
    DecodeMessage s = (.error "payload too big", s.drop 24) := by
  rw [DecodeMessage, decodeMessageHeader_eq s h24]
  simp only [gt_iff_lt]
  rw [if_pos hbig]

/-- Witness for C6: a concrete header whose length field says 33 MiB. -/
theorem decodeMessage_payload_too_big_witness :
    DecodeMessage (toLE 4 MainnetMagicValue ++ BlockCommand ++ toLE 4 (33 * 1024 * 1024) ++
        [0, 0, 0, 0]) =
      (.error "payload too big", []) := by
  have h := decodeMessage_payload_too_big
    (toLE 4 MainnetMagicValue ++ BlockCommand ++ toLE 4 (33 * 1024 * 1024) ++ [0, 0, 0, 0])
    (by decide) (by decide)
  rw [h]
  decide

/-! ## Claim C10 — snapshot refused on an empty block set -/

/-- C10: with no blocks held, `saveBlocksToDisk` returns the
"no blocks to write to file" error before touching any file, so the
temporary file is not created and an existing snapshot survives; with at
least one block it writes the VarInt count followed by the block payloads
through the temporary file renamed onto the target. -/
theorem saveBlocksToDisk_spec (blocks : List BlockPayload) (fs : SnapshotFS) :
    (blocks = [] → saveBlocksToDisk blocks fs = (.error "no blocks to write to file", fs)) ∧
    (blocks ≠ [] →
      saveBlocksToDisk blocks fs =
        (.ok (), ⟨none, some (VarInt.encode blocks.length ++
          (blocks.map BlockPayload.Encode).flatten)⟩)) := by
  constructor
  · intro h
    subst h
    rfl
  · intro h
    rw [saveBlocksToDisk, if_neg (by simpa using h)]

/-- Witness for C10: an empty set leaves an existing snapshot untouched; a
one-block set writes count 1 followed by that block's payload. -/
theorem saveBlocksToDisk_spec_witness :
    saveBlocksToDisk [] ⟨none, some [7]⟩ = (.error "no blocks to write to file", ⟨none, some [7]⟩) ∧
    saveBlocksToDisk [wBlock] ⟨none, some [7]⟩ =
      (.ok (), ⟨none, some (VarInt.encode 1 ++ (([wBlock].map BlockPayload.Encode).flatten))⟩) :=
  ⟨(saveBlocksToDisk_spec [] ⟨none, some [7]⟩).1 rfl,
   (saveBlocksToDisk_spec [wBlock] ⟨none, some [7]⟩).2 (by simp)⟩

/-! ## Claim C8 — block ingestion: hashing, deduplication, index agreement -/

/-- C8: `addBlockToNode` identifies a block by `GetBlockHash` (double SHA-256
of the six header fields in on-wire order), leaves the store untouched when
that hash is already indexed, otherwise appends the block and indexes its
hash — and it preserves the index/list agreement and hash uniqueness. -/
theorem addBlockToNode_spec (n : NodeBlocks) (b : BlockPayload) (hinv : blocksInv n) :
    blocksInv (addBlockToNode n b) ∧
    (GetBlockHash b ∈ n.blockHashes → addBlockToNode n b = n) ∧
    (GetBlockHash b ∉ n.blockHashes →
      (addBlockToNode n b).blocks = n.blocks ++ [b] ∧
      (addBlockToNode n b).blockHashes = n.blockHashes ++ [GetBlockHash b]) ∧
    GetBlockHash b = sha256d (intToLE 4 b.version ++ b.prevBlock ++ b.merkleRoot ++
      toLE 4 b.timestamp ++ toLE 4 b.bits ++ toLE 4 b.nonce) := by
  unfold addBlockToNode
  by_cases hmem : GetBlockHash b ∈ n.blockHashes
  · simp only [if_pos hmem]
    exact ⟨hinv, fun _ => by trivial, fun hn => absurd hmem hn, rfl⟩
  · simp only [if_neg hmem]
    refine ⟨⟨?_, ?_⟩, fun h => absurd h hmem, fun _ => by constructor <;> trivial, rfl⟩
    · intro h
      simp only [List.mem_append, List.mem_singleton, List.map_append, List.map_cons,
        List.map_nil]
      rw [hinv.1 h]
    · have hgb : GetBlockHash b ∉ n.blocks.map GetBlockHash := fun hc => hmem ((hinv.1 _).mpr hc)
      simp [List.map_append, List.nodup_append, hinv.2, hgb]

/-- Witness for C8: the invariant holds of the empty store, so ingesting into
it preserves it and appends the new block. -/
theorem addBlockToNode_spec_witness :
    blocksInv (addBlockToNode emptyNodeBlocks wBlock) ∧
    (addBlockToNode emptyNodeBlocks wBlock).blocks = [wBlock] := by
  have hinv : blocksInv emptyNodeBlocks := by simp [blocksInv, emptyNodeBlocks]
  have h := addBlockToNode_spec emptyNodeBlocks wBlock hinv
  refine ⟨h.1, ?_⟩
  have := (h.2.2.1 (by simp [emptyNodeBlocks])).1
  simpa [emptyNodeBlocks] using this

/-! ## Claim C2 — chain closure is not an invariant of ingestion -/

/-- Counterexample to C2: one `addBlockToNode` step from the empty store
reaches a state holding a block whose previous-block hash is neither the
zero hash nor the hash of any held block, so chain closure under parent is
not an invariant of block ingestion. -/
theorem chainClosure_not_invariant :
    ReachableBlocks (addBlockToNode emptyNodeBlocks cexBlock) ∧
    ¬ chainClosure (addBlockToNode emptyNodeBlocks cexBlock) :=
  ⟨.add _ _ .empty, by decide⟩

/-- C2 (amended): what ingestion does maintain is the trichotomy — every held
block's previous-block hash is the zero hash, or indexed, or reported by
`getMissingBlocksHashes` (and the node then requests exactly those hashes). -/
theorem prevBlock_zero_or_held_or_missing (n : NodeBlocks) (b : BlockPayload)
    (hb : b ∈ n.blocks) :
    b.prevBlock = zeroHash ∨ b.prevBlock ∈ n.blockHashes ∨
      b.prevBlock ∈ getMissingBlocksHashes n := by
  by_cases h1 : b.prevBlock = zeroHash
  · exact Or.inl h1
  by_cases h2 : b.prevBlock ∈ n.blockHashes
  · exact Or.inr (Or.inl h2)
  refine Or.inr (Or.inr ?_)
  unfold getMissingBlocksHashes
  exact List.mem_map.mpr ⟨b, List.mem_filter.mpr ⟨hb, by simp [h1, h2]⟩, rfl⟩

/-- Witness for the amended C2 at the counterexample state. -/
theorem prevBlock_zero_or_held_or_missing_witness :
    cexBlock.prevBlock = zeroHash ∨
      cexBlock.prevBlock ∈ (addBlockToNode emptyNodeBlocks cexBlock).blockHashes ∨
      cexBlock.prevBlock ∈ getMissingBlocksHashes (addBlockToNode emptyNodeBlocks cexBlock) :=
  prevBlock_zero_or_held_or_missing (addBlockToNode emptyNodeBlocks cexBlock) cexBlock
    (by simp [addBlockToNode, emptyNodeBlocks])

/-! ## Claim C5 — request-addresses is not single-flight -/

/-- Counterexample to C5: with the one-shot slot occupied, a second
`sendGetAddrMsg` does not fail — it succeeds, replaces the slot with the
fresh receiver and enqueues another getaddr message. -/
theorem sendGetAddrMsg_not_single_flight :
    Peer.sendGetAddrMsg busyPeer 1 =
      .ok (1, { busyPeer with getAddrMsgResponseCh := some 1,
                              writeCh := [getAddrMsgEncoded] }) := rfl

/-- C5 (amended): `sendGetAddrMsg` always succeeds: it unconditionally
overwrites the one-shot reply slot with the fresh receiver and enqueues a
getaddr message, whether or not a request is already in flight. -/
theorem sendGetAddrMsg_always_overwrites (p : PeerState) (newCh : Nat) :
    Peer.sendGetAddrMsg p newCh =
      .ok (newCh, { p with getAddrMsgResponseCh := some newCh,
                           writeCh := p.writeCh ++ [getAddrMsgEncoded] }) := rfl

/-! ## Claim C4 — getaddr timeout does not terminate the chosen peer -/

theorem addUnconnectedAddrToNode_peers (n : NodeNet) (a : TCPAddress) :
    (addUnconnectedAddrToNode n a).peers = n.peers := by
  unfold addUnconnectedAddrToNode
  split_ifs <;> rfl

theorem foldl_addUnconnected_peers (l : List Address) (n : NodeNet) :
    (l.foldl (fun m a => addUnconnectedAddrToNode m (addressToTCP a)) n).peers = n.peers := by
  induction l generalizing n with
  | nil => rfl
  | cons a l ih => rw [List.foldl_cons, ih, addUnconnectedAddrToNode_peers]

/-- C4: `addPeersIfNecessary` never produces `ErrSendGetAddrMsgFailed`
(whatever the getaddr reply — in particular on timeout), so the `selectLoop`
handler that would quit the slow peer is unreachable: the procedure returns
success, every live peer (the one asked for addresses included) stays live,
and no peer is terminated on a getaddr timeout. -/
theorem getaddr_timeout_keeps_peer (n : NodeNet) (reply : GetAddrReply)
    (dialOk : TCPAddress → Bool) (p : TCPAddress) (hp : p ∈ n.peers) :
    ∃ n' notif, addPeersIfNecessary n reply dialOk = .ok (n', notif) ∧ p ∈ n'.peers ∧
      selectLoopAddPeersStep n reply dialOk = (n', [], false) := by
  have hne : ¬ (n.peers.length = 0 ∧ n.unconnectedAddrs.length = 0) := by
    intro hz
    rw [List.length_eq_zero] at hz
    exact absurd (hz.1 ▸ hp) (List.not_mem_nil p)
  unfold addPeersIfNecessary
  rw [if_neg hne]
  by_cases hmin : n.peers.length ≥ n.minimumPeers
  · rw [if_pos hmin]
    refine ⟨n, false, rfl, hp, ?_⟩
    unfold selectLoopAddPeersStep addPeersIfNecessary
    rw [if_neg hne, if_pos hmin]
  · rw [if_neg hmin]
    refine ⟨_, _, rfl, ?_, ?_⟩
    · simp only [attemptAddingSomePeers]
      cases hh : n.peers.head? with
      | none => simp only [hh, List.mem_append]; exact Or.inl hp
      | some q =>
        simp only [hh]
        split_ifs
        · rw [List.mem_append, foldl_addUnconnected_peers]
          exact Or.inl hp
        · exact List.mem_append.mpr (Or.inl hp)
    · unfold selectLoopAddPeersStep addPeersIfNecessary
      rw [if_neg hne, if_neg hmin]
      simp only [attemptAddingSomePeers]

/-- Witness for C4: a node with one live peer, no unconnected addresses and a
deficit issues the getaddr; the wait times out; the peer survives and nothing
is quit. -/
theorem getaddr_timeout_keeps_peer_witness :
    ∃ n' notif,
      addPeersIfNecessary ⟨[⟨List.replicate 16 0, 8333⟩], [⟨List.replicate 16 0, 8333⟩], [], 5⟩
        .timeout (fun _ => false) = .ok (n', notif) ∧
      (⟨List.replicate 16 0, 8333⟩ : TCPAddress) ∈ n'.peers ∧
      selectLoopAddPeersStep ⟨[⟨List.replicate 16 0, 8333⟩], [⟨List.replicate 16 0, 8333⟩], [], 5⟩
        .timeout (fun _ => false) = (n', [], false) :=
  getaddr_timeout_keeps_peer _ .timeout (fun _ => false) _ (by simp)

end BitcoinNode
